import Mathlib

/-!
# Spinning cube renderer: embedding of `cube.cpp`

The class `CubeRenderer` of `cube.cpp` is embedded as a record of its fields and
one Lean function per member function, with explicit state passing.

Conventions of the embedding.

* `float` is an exact linearly ordered field `α` with a floor function (the
  real numbers, or the rationals), and the arithmetic of the transform, the
  projection and the depth test is exact. Where rounding decides what the
  program does, the accumulated `float` variables, it is modelled: the loop
  variables of `renderCube` and the angles of `rotate` have the binary32
  embeddings `renderCubeFloat` and `rotateFloat`, next to the exact readings
  `renderCube` and `rotate`.
* `sin` and `cos` come from `<cmath>`, not from the repository; every function
  whose source calls them takes them as the parameters `sin cos : α → α`.
  Theorems that need trigonometric facts instantiate them with `Real.sin` and
  `Real.cos`.
* `int` is the unbounded `Int` (signed overflow, undefined in C++, is not
  modelled); `int / int` is `Int.tdiv` and `static_cast<int>` of a float is
  truncation toward zero.
* `std::vector` is a `List`; an access outside the vector is undefined
  behaviour in C++ and is the fault `Fault.outOfRange` here.
* The `float` loops of `renderCube` are run with fuel; running out of it is the
  fault `Fault.outOfFuel`.
-/

namespace Cube

/-- Ways an embedded member function can fail to produce a state. -/
inductive Fault where
  | outOfRange
  | outOfFuel
  deriving DecidableEq

/-- Fields of `class CubeRenderer` (cube.cpp lines 51-59). -/
structure CubeRenderer (α : Type) where
  width : Int
  height : Int
  zBuffer : List α
  buffer : List Char
  A : α
  B : α
  C : α
  cubeWidth : α
  distanceFromCam : Int
  zoomlevel : α

/-- Arguments of one call of `drawPoint`, bundled so that a frame's calls can be
held in a list. -/
structure Sample (α : Type) where
  x : α
  y : α
  z : α
  character : Char

section Defs

variable {α : Type} [LinearOrderedField α] [FloorRing α]

/-- Constructor `CubeRenderer(int w, int h)` (cube.cpp lines 10-17). -/
def newCubeRenderer (w h : Int) : CubeRenderer α :=
  { width := w
    height := h
    zBuffer := List.replicate (w * h).toNat 0
    buffer := List.replicate (w * h).toNat ' '
    A := 0
    B := 0
    C := 0
    cubeWidth := 20
    distanceFromCam := 100
    zoomlevel := 30 }

/-- Object built by `main`: `CubeRenderer cube;` with the default arguments
`w = 80`, `h = 24` (cube.cpp lines 10 and 184). -/
def defaultCubeRenderer : CubeRenderer α := newCubeRenderer 80 24

/-- Member `calculateX` (cube.cpp lines 86-89). -/
def calculateX (sin cos : α → α) (s : CubeRenderer α) (i j k : α) : α :=
  i * cos s.C * cos s.B + j * cos s.C * sin s.B * sin s.A - j * sin s.C * cos s.A
    + k * cos s.C * sin s.B * cos s.A + k * sin s.C * sin s.A

/-- Member `calculateY` (cube.cpp lines 91-94). -/
def calculateY (sin cos : α → α) (s : CubeRenderer α) (i j k : α) : α :=
  i * sin s.C * cos s.B + j * sin s.C * sin s.B * sin s.A + j * cos s.C * cos s.A
    + k * sin s.C * sin s.B * cos s.A - k * cos s.C * sin s.A

/-- Member `calculateZ` (cube.cpp lines 96-98). -/
def calculateZ (sin cos : α → α) (s : CubeRenderer α) (i j k : α) : α :=
  i * -(sin s.B) + j * cos s.B * sin s.A + k * cos s.B * cos s.A

/-- Conversion `static_cast<int>(v)` of a float: truncation toward zero. -/
def staticCastInt (v : α) : Int :=
  if 0 ≤ v then ⌊v⌋ else ⌈v⌉

/-- Read `v[i]` of a `std::vector` with an `int` index; `none` outside it. -/
def vectorGet {β : Type} (v : List β) (i : Int) : Option β :=
  if i < 0 then none else v[i.toNat]?

/-- Write `v[i] = b` of a `std::vector` with an `int` index; `none` outside it. -/
def vectorSet {β : Type} (v : List β) (i : Int) (b : β) : Option (List β) :=
  if i < 0 then none
  else if i.toNat < v.length then some (v.set i.toNat b) else none

/-- Local `zp` of `drawPoint` (cube.cpp line 128): the shifted depth. -/
def shiftedZ (sin cos : α → α) (s : CubeRenderer α) (x y z : α) : α :=
  calculateZ sin cos s x y z + (s.distanceFromCam : α)

/-- First half of `drawPoint` (cube.cpp lines 126-135): the rotated point, the
behind-camera test and the projection. `none` is the early `return` of line
130; otherwise the locals `(screenx, screeny, oneoverz)`. -/
def project (sin cos : α → α) (s : CubeRenderer α) (x y z : α) : Option (Int × Int × α) :=
  let xp := calculateX sin cos s x y z
  let yp := calculateY sin cos s x y z
  let zp := shiftedZ sin cos s x y z
  if zp ≤ 0 then none
  else
    let oneoverz := 1 / zp
    let screenx := staticCastInt (((s.width.tdiv 2 : Int) : α) + s.zoomlevel * oneoverz * xp * 2)
    let screeny := staticCastInt (((s.height.tdiv 2 : Int) : α) + s.zoomlevel * oneoverz * yp)
    some (screenx, screeny, oneoverz)

/-- Second half of `drawPoint` (cube.cpp lines 138-152): bounds check, flat
index and depth test for the locals `screenx`, `screeny`, `oneoverz`. -/
def plot (s : CubeRenderer α) (screenx screeny : Int) (oneoverz : α) (character : Char) :
    Except Fault (CubeRenderer α) :=
  if screenx < 0 ∨ screenx ≥ s.width ∨ screeny < 0 ∨ screeny ≥ s.height then .ok s
  else
    let index := screeny * s.width + screenx
    match vectorGet s.zBuffer index with
    | none => .error .outOfRange
    | some d =>
      if oneoverz > d then
        match vectorSet s.zBuffer index oneoverz, vectorSet s.buffer index character with
        | some zb, some b => .ok { s with zBuffer := zb, buffer := b }
        | _, _ => .error .outOfRange
      else .ok s

/-- Member `drawPoint` (cube.cpp lines 124-153). -/
def drawPoint (sin cos : α → α) (s : CubeRenderer α) (x y z : α) (character : Char) :
    Except Fault (CubeRenderer α) :=
  match project sin cos s x y z with
  | none => .ok s
  | some (screenx, screeny, oneoverz) => plot s screenx screeny oneoverz character

/-- Consecutive calls of `drawPoint`, one per sample, left to right. -/
def drawPoints (sin cos : α → α) : CubeRenderer α → List (Sample α) → Except Fault (CubeRenderer α)
  | s, [] => .ok s
  | s, p :: ps =>
    match drawPoint sin cos s p.x p.y p.z p.character with
    | .error e => .error e
    | .ok s1 => drawPoints sin cos s1 ps

/-- Local `increment` of `renderCube` (cube.cpp line 102) read as the exact
number 0.8; `incrementFloat` is the `float` the source stores. -/
def increment : α := 0.8

/-- Local `chars` of `renderCube` (cube.cpp line 104). -/
def chars : List Char := ['@', '#', '%', '.', '=', '^']

/-- Body of the inner loop of `renderCube` (cube.cpp lines 108-119) for the
loop variables `x` and `y`: the arguments of the six calls in source order,
with the glyphs `chars[0] .. chars[5]`. The source reads `cubeWidth` at each
call; `drawPoint` never writes it, so it is read once here. -/
def faceSamples (s : CubeRenderer α) (x y : α) : List (Sample α) :=
  [ ⟨x, y, -s.cubeWidth, '@'⟩,
    ⟨s.cubeWidth, y, x, '#'⟩,
    ⟨-s.cubeWidth, y, -x, '%'⟩,
    ⟨-x, y, s.cubeWidth, '.'⟩,
    ⟨x, -s.cubeWidth, -y, '='⟩,
    ⟨x, s.cubeWidth, y, '^'⟩ ]

/-- Cursor-home control sequence written first by `display` (cube.cpp line 162). -/
def cursorHome : List Char := [Char.ofNat 27, '[', 'H']

/-- Call `frame.append(&buffer[offset], count)` (cube.cpp line 167): the `count`
characters of `buffer` from `offset`; `none` when they are not all inside it. -/
def appendRow (frame : List Char) (buffer : List Char) (offset count : Int) : Option (List Char) :=
  if offset < 0 ∨ count < 0 ∨ (buffer.length : Int) < offset + count then none
  else some (frame ++ (buffer.drop offset.toNat).take count.toNat)

/-- Loop of `display` (cube.cpp lines 164-170) with `n` rows left to emit,
the next one being row `y`. -/
def displayRows (s : CubeRenderer α) : Nat → Int → List Char → Except Fault (List Char)
  | 0, _, frame => .ok frame
  | n + 1, y, frame =>
    match appendRow frame s.buffer (y * s.width) s.width with
    | none => .error .outOfRange
    | some f => displayRows s n (y + 1) (f ++ ['\n'])

/-- Member `display` (cube.cpp lines 155-173): the string sent to `std::cout`. -/
def display (s : CubeRenderer α) : Except Fault String :=
  match displayRows s s.height.toNat 0 cursorHome with
  | .error e => .error e
  | .ok frame => .ok (String.mk frame)

/-- Buffer reset at the start of a loop iteration of `run` (cube.cpp lines
27-28): `std::fill` over both vectors. -/
def resetBuffers (s : CubeRenderer α) : CubeRenderer α :=
  { s with buffer := s.buffer.map (fun _ => ' '), zBuffer := s.zBuffer.map (fun _ => 0) }

/-- Standard right-handed rotation about the x axis by the angle `t`. -/
def rotateAboutX (sin cos : α → α) (t : α) (p : α × α × α) : α × α × α :=
  (p.1, p.2.1 * cos t - p.2.2 * sin t, p.2.1 * sin t + p.2.2 * cos t)

/-- Standard right-handed rotation about the y axis by the angle `t`. -/
def rotateAboutY (sin cos : α → α) (t : α) (p : α × α × α) : α × α × α :=
  (p.1 * cos t + p.2.2 * sin t, p.2.1, -(p.1 * sin t) + p.2.2 * cos t)

/-- Standard right-handed rotation about the z axis by the angle `t`. -/
def rotateAboutZ (sin cos : α → α) (t : α) (p : α × α × α) : α × α × α :=
  (p.1 * cos t - p.2.1 * sin t, p.1 * sin t + p.2.1 * cos t, p.2.2)

/-- Both buffers have the length fixed by the constructor, `width * height`. -/
def WellFormed (s : CubeRenderer α) : Prop :=
  s.zBuffer.length = (s.width * s.height).toNat ∧ s.buffer.length = (s.width * s.height).toNat

instance (s : CubeRenderer α) : Decidable (WellFormed s) := by
  unfold WellFormed; infer_instance

/-- State `t` has the angles, the configuration and the buffer lengths of `s`:
everything but the contents of the two buffers. -/
def SameScene (s t : CubeRenderer α) : Prop :=
  t.width = s.width ∧ t.height = s.height ∧ t.A = s.A ∧ t.B = s.B ∧ t.C = s.C ∧
    t.cubeWidth = s.cubeWidth ∧ t.distanceFromCam = s.distanceFromCam ∧
    t.zoomlevel = s.zoomlevel ∧ t.zBuffer.length = s.zBuffer.length ∧
    t.buffer.length = s.buffer.length

instance (s t : CubeRenderer α) : Decidable (SameScene s t) := by
  unfold SameScene; infer_instance

/-- Screen column in the specification's words: the truncation of
`width/2 + zoom * invZ * x' * 2`, with `width/2` half the width. -/
def halfWidthScreenX (s : CubeRenderer α) (xp invZ : α) : Int :=
  staticCastInt ((s.width : α) / 2 + s.zoomlevel * invZ * xp * 2)

/-- Screen row in the specification's words: the truncation of
`height/2 + zoom * invZ * y'`, with `height/2` half the height. -/
def halfHeightScreenY (s : CubeRenderer α) (yp invZ : α) : Int :=
  staticCastInt ((s.height : α) / 2 + s.zoomlevel * invZ * yp)

/-- Flat buffer index at which `drawPoint` accepts the sample `p` in state `s`:
the sample has shifted depth `> 0` and its screen coordinates are inside
`[0, width) x [0, height)`; `none` when the sample is skipped. -/
def acceptedIndex (sin cos : α → α) (s : CubeRenderer α) (p : Sample α) : Option Int :=
  match project sin cos s p.x p.y p.z with
  | none => none
  | some (screenx, screeny, _) =>
    if 0 ≤ screenx ∧ screenx < s.width ∧ 0 ≤ screeny ∧ screeny < s.height then
      some (screeny * s.width + screenx)
    else none

/-- Inverse depth `1 / shiftedZ` of the sample `p` in state `s`. -/
def inverseDepth (sin cos : α → α) (s : CubeRenderer α) (p : Sample α) : α :=
  1 / shiftedZ sin cos s p.x p.y p.z

/-- Row `y` of the frame in the specification's words: the glyphs
`buffer[y*width] .. buffer[y*width + width - 1]`. -/
def rowText (width : Nat) (buffer : List Char) (y : Nat) : List Char :=
  (List.range width).filterMap (fun x => buffer[y * width + x]?)

/-- Frame in the specification's words: the cursor-home prefix, then for each
row `y = 0 .. height-1` in order its glyphs and one line break. -/
def frameText (width height : Nat) (buffer : List Char) : List Char :=
  cursorHome ++ (List.range height).flatMap (fun y => rowText width buffer y ++ ['\n'])

/-- Operand of the `static_cast<int>` of cube.cpp line 134: the horizontal
screen position of a sample before truncation. -/
def screenPositionX (sin cos : α → α) (s : CubeRenderer α) (x y z : α) : α :=
  ((s.width.tdiv 2 : Int) : α)
    + s.zoomlevel * (1 / shiftedZ sin cos s x y z) * calculateX sin cos s x y z * 2

/-- Operand of the `static_cast<int>` of cube.cpp line 135: the vertical screen
position of a sample before truncation. -/
def screenPositionY (sin cos : α → α) (s : CubeRenderer α) (x y z : α) : α :=
  ((s.height.tdiv 2 : Int) : α)
    + s.zoomlevel * (1 / shiftedZ sin cos s x y z) * calculateY sin cos s x y z

/-- Grid coordinate in the specification's words: `-h + 0.8 * a`. -/
def gridCoordinate (h : α) (a : Nat) : α := -h + 0.8 * (a : α)

/-- Six samples of one grid point `(u, v)` in the specification's words: front,
right, left, back, bottom, top. -/
def gridPointSamples (h u v : α) : List (Sample α) :=
  [ ⟨u, v, -h, '@'⟩, ⟨h, v, u, '#'⟩, ⟨-h, v, -u, '%'⟩,
    ⟨-u, v, h, '.'⟩, ⟨u, -h, -v, '='⟩, ⟨u, h, v, '^'⟩ ]

/-- Samples of one frame in the specification's words: for `a = 0 .. 49` (outer)
and `b = 0 .. 49` (inner) the six samples of the grid point
`(-h + 0.8 * a, -h + 0.8 * b)`. -/
def cubeSamples (h : α) : List (Sample α) :=
  (List.range 50).flatMap (fun a => (List.range 50).flatMap (fun b =>
    gridPointSamples h (gridCoordinate h a) (gridCoordinate h b)))

/-- Nearest integer to `m`, a tie going to the even neighbour: the rounding
rule of IEEE 754 arithmetic applied to a scaled significand. -/
def roundHalfEven (m : α) : Int :=
  if m - (⌊m⌋ : α) < 1 / 2 then ⌊m⌋
  else if 1 / 2 < m - (⌊m⌋ : α) then ⌊m⌋ + 1
  else if ⌊m⌋ % 2 = 0 then ⌊m⌋ else ⌊m⌋ + 1

/-- Value `x` rounded to the nearest number of a binary floating-point format
with `p` significand bits and least normal exponent `emin` (round to nearest,
ties to even; below `2 ^ emin` the spacing stays that of the subnormals).
Overflow to infinity and the sign of zero are not modelled. -/
def roundBinary (p : Nat) (emin : Int) (x : α) : α :=
  if x = 0 then 0
  else
    let e := max (Int.log 2 |x|) emin
    let ulp := (2 : α) ^ (e - ((p : Int) - 1))
    (roundHalfEven (x / ulp) : α) * ulp

/-- Conversion to `float` (binary32: 24 significand bits). -/
def roundFloat (x : α) : α := roundBinary 24 (-126) x

/-- Conversion to `double` (binary64: 53 significand bits). -/
def roundDouble (x : α) : α := roundBinary 53 (-1022) x

/-- Local `increment` of `renderCube` as the source stores it (cube.cpp line
102): the `double` literal `0.8` converted to `float`. -/
def incrementFloat : α := roundFloat (roundDouble 0.8)

/-- Update `x += increment` of a `float` loop variable of `renderCube`
(cube.cpp lines 106-107): a `float` addition, rounded to binary32. -/
def floatStep (x : α) : α := roundFloat (x + incrementFloat)

/-- Inner loop of `renderCube` (cube.cpp line 107) with the loop variable `y`
rounded as the source's `float` arithmetic rounds it. -/
def renderInnerFloat (sin cos : α → α) (x : α) :
    Nat → α → CubeRenderer α → Except Fault (CubeRenderer α)
  | 0, y, s => if y < s.cubeWidth then .error .outOfFuel else .ok s
  | fuel + 1, y, s =>
    if y < s.cubeWidth then
      match drawPoints sin cos s (faceSamples s x y) with
      | .error e => .error e
      | .ok s1 => renderInnerFloat sin cos x fuel (floatStep y) s1
    else .ok s

/-- Outer loop of `renderCube` (cube.cpp line 106) with the loop variable `x`
rounded as the source's `float` arithmetic rounds it. -/
def renderOuterFloat (sin cos : α → α) (inner : Nat) :
    Nat → α → CubeRenderer α → Except Fault (CubeRenderer α)
  | 0, x, s => if x < s.cubeWidth then .error .outOfFuel else .ok s
  | fuel + 1, x, s =>
    if x < s.cubeWidth then
      match renderInnerFloat sin cos x inner (-s.cubeWidth) s with
      | .error e => .error e
      | .ok s1 => renderOuterFloat sin cos inner fuel (floatStep x) s1
    else .ok s

/-- Member `renderCube` (cube.cpp lines 101-122) with binary32 loop variables. -/
def renderCubeFloat (sin cos : α → α) (fuel : Nat) (s : CubeRenderer α) :
    Except Fault (CubeRenderer α) :=
  renderOuterFloat sin cos fuel fuel (-s.cubeWidth) s

/-- Member `rotate` (cube.cpp lines 175-179) with the rounding of the source:
`A += 0.05` adds the `double` constant to the `float` angle in `double` and
converts the sum back to `float`. -/
def rotateFloat (s : CubeRenderer α) : CubeRenderer α :=
  { s with
    A := roundFloat (roundDouble (s.A + roundDouble 0.05))
    B := roundFloat (roundDouble (s.B + roundDouble 0.05))
    C := roundFloat (roundDouble (s.C + roundDouble 0.01)) }

/-- One iteration of the loop of `run` (cube.cpp lines 25-39) with the binary32
loop variables of `renderCube` and the binary32 accumulators of `rotate`. -/
def runIterationFloat (sin cos : α → α) (fuel : Nat) (s : CubeRenderer α) :
    Except Fault (CubeRenderer α × String) :=
  match renderCubeFloat sin cos fuel (resetBuffers s) with
  | .error e => .error e
  | .ok s1 =>
    match display s1 with
    | .error e => .error e
    | .ok frame => .ok (rotateFloat s1, frame)

/-- First `n` iterations of the loop of `run` (cube.cpp lines 19-40; the loop
itself never returns) with binary32 loop variables and accumulators: the state
after them and the frames printed, oldest first. The terminal setup before the
loop (`clearScreen`, `hideCursor`) does not touch the state and is left out. -/
def runLoopFloat (sin cos : α → α) (fuel : Nat) :
    Nat → CubeRenderer α → Except Fault (CubeRenderer α × List String)
  | 0, s => .ok (s, [])
  | n + 1, s =>
    match runIterationFloat sin cos fuel s with
    | .error e => .error e
    | .ok (s1, frame) =>
      match runLoopFloat sin cos fuel n s1 with
      | .error e => .error e
      | .ok (s2, frames) => .ok (s2, frame :: frames)

/-- Value of a `float` loop variable of `renderCube` after `a` updates: it
starts at `-h` and each update adds the `float` step and rounds. -/
def loopValue (h : α) (a : Nat) : α := floatStep^[a] (-h)

/-- Samples of one frame under binary32 loop variables: for `a = 0 .. 50`
(outer) and `b = 0 .. 50` (inner) the six samples of the grid point
`(loopValue h a, loopValue h b)`. -/
def cubeSamplesFloat (h : α) : List (Sample α) :=
  (List.range 51).flatMap (fun a => (List.range 51).flatMap (fun b =>
    gridPointSamples h (loopValue h a) (loopValue h b)))

/-- Angle after `n` calls of `rotate` from 0 with the step `c`: each call adds
the `double` nearest `c` in `double` and rounds the sum to `float`. -/
def accumulate (c : α) (n : Nat) : α :=
  (fun a => roundFloat (roundDouble (a + roundDouble c)))^[n] 0

/-- Numerators over `2 ^ 24` of `loopValue 20 a` for `a = 0 .. 51`. -/
def loopNumerators : List Int :=
  [
    -335544320, -322122560, -308700800, -295279040, -281857280, -268435520,
    -255013744, -241591968, -228170192, -214748416, -201326640, -187904864,
    -174483088, -161061312, -147639536, -134217760, -120795984, -107374208,
    -93952432, -80530656, -67108880, -53687108, -40265336, -26843564,
    -13421791, -18, 13421755, 26843528, 40265300, 53687072,
    67108844, 80530616, 93952392, 107374168, 120795944, 134217720,
    147639488, 161061264, 174483040, 187904816, 201326592, 214748368,
    228170144, 241591920, 255013696, 268435456, 281857216, 295278976,
    308700736, 322122496, 335544256, 348966016 ]

end Defs

section Theorems
set_option linter.unusedSectionVars false
variable {α : Type} [LinearOrderedField α] [FloorRing α]

/-! ## Transform -/

theorem rotateAboutX_normSq (t : ℝ) (p : ℝ × ℝ × ℝ) :
    (rotateAboutX Real.sin Real.cos t p).1 ^ 2 + (rotateAboutX Real.sin Real.cos t p).2.1 ^ 2
      + (rotateAboutX Real.sin Real.cos t p).2.2 ^ 2 = p.1 ^ 2 + p.2.1 ^ 2 + p.2.2 ^ 2 := by
  simp only [rotateAboutX]
  linear_combination (p.2.1 ^ 2 + p.2.2 ^ 2) * Real.sin_sq_add_cos_sq t

theorem rotateAboutY_normSq (t : ℝ) (p : ℝ × ℝ × ℝ) :
    (rotateAboutY Real.sin Real.cos t p).1 ^ 2 + (rotateAboutY Real.sin Real.cos t p).2.1 ^ 2
      + (rotateAboutY Real.sin Real.cos t p).2.2 ^ 2 = p.1 ^ 2 + p.2.1 ^ 2 + p.2.2 ^ 2 := by
  simp only [rotateAboutY]
  linear_combination (p.1 ^ 2 + p.2.2 ^ 2) * Real.sin_sq_add_cos_sq t

theorem rotateAboutZ_normSq (t : ℝ) (p : ℝ × ℝ × ℝ) :
    (rotateAboutZ Real.sin Real.cos t p).1 ^ 2 + (rotateAboutZ Real.sin Real.cos t p).2.1 ^ 2
      + (rotateAboutZ Real.sin Real.cos t p).2.2 ^ 2 = p.1 ^ 2 + p.2.1 ^ 2 + p.2.2 ^ 2 := by
  simp only [rotateAboutZ]
  linear_combination (p.1 ^ 2 + p.2.1 ^ 2) * Real.sin_sq_add_cos_sq t

theorem calculate_eq_rotations (sin cos : α → α) (s : CubeRenderer α) (i j k : α) :
    (calculateX sin cos s i j k, calculateY sin cos s i j k, calculateZ sin cos s i j k)
      = rotateAboutZ sin cos s.C (rotateAboutY sin cos s.B (rotateAboutX sin cos s.A (i, j, k))) := by
  simp only [calculateX, calculateY, calculateZ, rotateAboutX, rotateAboutY, rotateAboutZ,
    Prod.mk.injEq]
  refine ⟨?_, ?_, ?_⟩ <;> ring

/-- C2: for all angles `A`, `B`, `C` and every point `(i, j, k)`, over the real
numbers with the real sine and cosine, the transform preserves the squared
length: `calculateX² + calculateY² + calculateZ² = i² + j² + k²`. -/
theorem transform_preserves_length (s : CubeRenderer ℝ) (i j k : ℝ) :
    calculateX Real.sin Real.cos s i j k ^ 2 + calculateY Real.sin Real.cos s i j k ^ 2
      + calculateZ Real.sin Real.cos s i j k ^ 2 = i ^ 2 + j ^ 2 + k ^ 2 := by
  have h := calculate_eq_rotations Real.sin Real.cos s i j k
  have hx := congrArg (fun q : ℝ × ℝ × ℝ => q.1) h
  have hy := congrArg (fun q : ℝ × ℝ × ℝ => q.2.1) h
  have hz := congrArg (fun q : ℝ × ℝ × ℝ => q.2.2) h
  simp only at hx hy hz
  rw [hx, hy, hz, rotateAboutZ_normSq, rotateAboutY_normSq, rotateAboutX_normSq]

/-- C3: for all angles and every point `(i, j, k)`, and whatever functions stand
for sine and cosine, the triple `(calculateX, calculateY, calculateZ)` is
`Rz(C) (Ry(B) (Rx(A) (i, j, k)))`: the rotation about the x axis by `A`, then
about the y axis by `B`, then about the z axis by `C`. -/
theorem transform_is_rotation_composition (sin cos : α → α) (s : CubeRenderer α) (i j k : α) :
    (calculateX sin cos s i j k, calculateY sin cos s i j k, calculateZ sin cos s i j k)
      = rotateAboutZ sin cos s.C (rotateAboutY sin cos s.B (rotateAboutX sin cos s.A (i, j, k))) :=
  calculate_eq_rotations sin cos s i j k

/-! ## Scene preservation -/

theorem SameScene.refl (s : CubeRenderer α) : SameScene s s := by
  simp [SameScene]

theorem SameScene.trans {s t u : CubeRenderer α} (h1 : SameScene s t) (h2 : SameScene t u) :
    SameScene s u := by
  simp only [SameScene] at *
  obtain ⟨a1, a2, a3, a4, a5, a6, a7, a8, a9, a10⟩ := h1
  obtain ⟨b1, b2, b3, b4, b5, b6, b7, b8, b9, b10⟩ := h2
  exact ⟨b1.trans a1, b2.trans a2, b3.trans a3, b4.trans a4, b5.trans a5, b6.trans a6,
    b7.trans a7, b8.trans a8, b9.trans a9, b10.trans a10⟩

theorem SameScene.wellFormed {s t : CubeRenderer α} (h : SameScene s t) (hs : WellFormed s) :
    WellFormed t := by
  simp only [SameScene, WellFormed] at *
  obtain ⟨a1, a2, -, -, -, -, -, -, a9, a10⟩ := h
  rw [a1, a2, a9, a10]; exact hs

theorem project_congr (sin cos : α → α) {s t : CubeRenderer α} (h : SameScene s t) (x y z : α) :
    project sin cos t x y z = project sin cos s x y z := by
  obtain ⟨a1, a2, a3, a4, a5, a6, a7, a8, -, -⟩ := h
  simp only [project, shiftedZ, calculateX, calculateY, calculateZ, a1, a2, a3, a4, a5, a7, a8]

theorem vectorSet_length {β : Type} {v v1 : List β} {i : Int} {b : β}
    (h : vectorSet v i b = some v1) : v1.length = v.length := by
  unfold vectorSet at h
  split at h
  · cases h
  · split at h
    · cases h; simp
    · cases h

theorem vectorGet_vectorSet {β : Type} {v v1 : List β} {i : Int} {b : β}
    (h : vectorSet v i b = some v1) : vectorGet v1 i = some b := by
  unfold vectorSet at h
  unfold vectorGet
  split at h
  · cases h
  · rename_i hi
    split at h
    · rename_i hlt
      cases h
      simp [hi, hlt]
    · cases h

/-- Shape of every result of `plot`: either the state itself, or the state with
cell `index` of both buffers overwritten. -/
theorem plot_cases (s : CubeRenderer α) (sx sy : Int) (oz : α) (c : Char) {s1 : CubeRenderer α}
    (h : plot s sx sy oz c = .ok s1) :
    s1 = s ∨ ∃ zb b, vectorSet s.zBuffer (sy * s.width + sx) oz = some zb ∧
      vectorSet s.buffer (sy * s.width + sx) c = some b ∧
      ¬ (sx < 0 ∨ sx ≥ s.width ∨ sy < 0 ∨ sy ≥ s.height) ∧
      s1 = { s with zBuffer := zb, buffer := b } := by
  unfold plot at h
  split at h
  · left; cases h; rfl
  · rename_i hb
    simp only at h
    split at h
    · cases h
    · split at h
      · split at h
        · rename_i zb b h1 h2
          right
          refine ⟨zb, b, h1, h2, hb, ?_⟩
          cases h; rfl
        · cases h
      · left; cases h; rfl

theorem plot_sameScene (s : CubeRenderer α) (sx sy : Int) (oz : α) (c : Char) {s1 : CubeRenderer α}
    (h : plot s sx sy oz c = .ok s1) : SameScene s s1 := by
  rcases plot_cases s sx sy oz c h with rfl | ⟨zb, b, h1, h2, -, rfl⟩
  · exact SameScene.refl _
  · simp [SameScene, vectorSet_length h1, vectorSet_length h2]

theorem plot_idem (s : CubeRenderer α) (sx sy : Int) (oz : α) (c : Char) {s1 : CubeRenderer α}
    (h : plot s sx sy oz c = .ok s1) : plot s1 sx sy oz c = .ok s1 := by
  rcases plot_cases s sx sy oz c h with rfl | ⟨zb, b, h1, h2, hb, rfl⟩
  · exact h
  · unfold plot
    simp only [if_neg hb, vectorGet_vectorSet h1, gt_iff_lt, lt_self_iff_false, if_false]

theorem drawPoint_sameScene (sin cos : α → α) (s : CubeRenderer α) (x y z : α) (c : Char)
    {s1 : CubeRenderer α} (h : drawPoint sin cos s x y z c = .ok s1) : SameScene s s1 := by
  unfold drawPoint at h
  split at h
  · cases h; exact SameScene.refl _
  · exact plot_sameScene _ _ _ _ _ h

/-- C4: for every state and every sample, a second call of `drawPoint` with the
same sample leaves the state, hence both buffers, exactly as the first call
left it (and a faulting first call is the same fault). -/
theorem drawPoint_twice (sin cos : α → α) (s : CubeRenderer α) (x y z : α) (character : Char) :
    (drawPoint sin cos s x y z character >>= fun s1 => drawPoint sin cos s1 x y z character)
      = drawPoint sin cos s x y z character := by
  cases h : drawPoint sin cos s x y z character with
  | error e => rfl
  | ok s1 =>
    show drawPoint sin cos s1 x y z character = .ok s1
    have hs := drawPoint_sameScene sin cos s x y z character h
    unfold drawPoint at h ⊢
    rw [project_congr sin cos hs]
    split at h
    · rfl
    · exact plot_idem s _ _ _ character h

/-- C5: for every state and every sample whose shifted depth
`calculateZ(x,y,z) + distanceFromCam` is `<= 0`, the projection yields no
screen coordinate and `drawPoint` returns the state unchanged. -/
theorem drawPoint_behind_camera (sin cos : α → α) (s : CubeRenderer α) (x y z : α)
    (character : Char) (h : calculateZ sin cos s x y z + (s.distanceFromCam : α) ≤ 0) :
    project sin cos s x y z = none ∧ drawPoint sin cos s x y z character = .ok s := by
  have hp : project sin cos s x y z = none := by
    simp only [project, shiftedZ, if_pos h]
  exact ⟨hp, by simp only [drawPoint, hp]⟩

theorem drawPoint_behind_camera_witness :
    calculateZ Real.sin Real.cos (defaultCubeRenderer : CubeRenderer ℝ) 0 0 (-100)
        + (((defaultCubeRenderer : CubeRenderer ℝ).distanceFromCam : Int) : ℝ) ≤ 0 ∧
      project Real.sin Real.cos (defaultCubeRenderer : CubeRenderer ℝ) 0 0 (-100) = none ∧
      drawPoint Real.sin Real.cos (defaultCubeRenderer : CubeRenderer ℝ) 0 0 (-100) '@'
        = .ok defaultCubeRenderer :=
  ⟨by simp only [calculateZ, defaultCubeRenderer, newCubeRenderer]; norm_num,
   drawPoint_behind_camera Real.sin Real.cos defaultCubeRenderer 0 0 (-100) '@'
     (by simp only [calculateZ, defaultCubeRenderer, newCubeRenderer]; norm_num)⟩


/-! ## Projection -/

theorem staticCastInt_eq (n : Int) {v : α} (h0 : 0 ≤ v) (h1 : (n : α) ≤ v) (h2 : v < (n : α) + 1) :
    staticCastInt v = n := by
  unfold staticCastInt
  rw [if_pos h0]
  exact Int.floor_eq_iff.mpr ⟨h1, h2⟩

theorem project_of_pos (sin cos : α → α) (s : CubeRenderer α) (x y z : α)
    (h : 0 < calculateZ sin cos s x y z + (s.distanceFromCam : α)) :
    project sin cos s x y z = some
      (staticCastInt (((s.width.tdiv 2 : Int) : α) + s.zoomlevel
          * (1 / (calculateZ sin cos s x y z + (s.distanceFromCam : α)))
          * calculateX sin cos s x y z * 2),
       staticCastInt (((s.height.tdiv 2 : Int) : α) + s.zoomlevel
          * (1 / (calculateZ sin cos s x y z + (s.distanceFromCam : α)))
          * calculateY sin cos s x y z),
       1 / (calculateZ sin cos s x y z + (s.distanceFromCam : α))) := by
  simp only [project, shiftedZ, if_neg (not_le.mpr h)]

theorem tdiv_two_cast {n : Int} (h : 2 ∣ n) : ((n.tdiv 2 : Int) : α) = (n : α) / 2 := by
  obtain ⟨k, rfl⟩ := h
  rw [Int.mul_tdiv_cancel_left k (by decide)]
  push_cast; ring

/-- Values of `calculateX`, `calculateY`, `calculateZ` at the constructor's
angles `A = B = C = 0`: the point itself. -/
theorem calculate_new (w h : Int) (i j k : ℝ) :
    calculateX Real.sin Real.cos (newCubeRenderer w h) i j k = i ∧
    calculateY Real.sin Real.cos (newCubeRenderer w h) i j k = j ∧
    calculateZ Real.sin Real.cos (newCubeRenderer w h) i j k = k := by
  simp only [calculateX, calculateY, calculateZ, newCubeRenderer, Real.sin_zero, Real.cos_zero]
  refine ⟨?_, ?_, ?_⟩ <;> ring

theorem project_new_3x2 :
    project Real.sin Real.cos (newCubeRenderer 3 2 : CubeRenderer ℝ) 1 0 (-20)
      = some (1, 1, 1 / 80) := by
  obtain ⟨hx, hy, hz⟩ := calculate_new 3 2 1 0 (-20)
  have hd : (((newCubeRenderer 3 2 : CubeRenderer ℝ).distanceFromCam : Int) : ℝ) = 100 := by
    simp only [newCubeRenderer]; norm_num
  rw [project_of_pos _ _ _ _ _ _ (by rw [hz, hd]; norm_num), hz, hx, hy, hd]
  have h3 : (newCubeRenderer 3 2 : CubeRenderer ℝ).width.tdiv 2 = 1 := by decide
  have h2 : (newCubeRenderer 3 2 : CubeRenderer ℝ).height.tdiv 2 = 1 := by decide
  have hzoom : (newCubeRenderer 3 2 : CubeRenderer ℝ).zoomlevel = 30 := rfl
  rw [h3, h2, hzoom]
  rw [staticCastInt_eq 1 (by norm_num) (by norm_num) (by norm_num),
    staticCastInt_eq 1 (by norm_num) (by norm_num) (by norm_num)]
  norm_num

/-- C6, as stated, fails for an odd width: in a 3 x 2 renderer at the
constructor's angles the sample `(1, 0, -20)` has shifted depth 80 and
`drawPoint` computes `screenx = 1` (from `3 / 2 = 1` and `1 + 0.75`), while
half the width gives `1.5 + 0.75`, truncated to 2. -/
theorem screenx_odd_width_not_half :
    0 < calculateZ Real.sin Real.cos (newCubeRenderer 3 2 : CubeRenderer ℝ) 1 0 (-20)
        + (((newCubeRenderer 3 2 : CubeRenderer ℝ).distanceFromCam : Int) : ℝ) ∧
    project Real.sin Real.cos (newCubeRenderer 3 2 : CubeRenderer ℝ) 1 0 (-20)
      = some (1, 1, 1 / 80) ∧
    halfWidthScreenX (newCubeRenderer 3 2 : CubeRenderer ℝ)
      (calculateX Real.sin Real.cos (newCubeRenderer 3 2 : CubeRenderer ℝ) 1 0 (-20)) (1 / 80) = 2 ∧
    project Real.sin Real.cos (newCubeRenderer 3 2 : CubeRenderer ℝ) 1 0 (-20) ≠ some
      (halfWidthScreenX (newCubeRenderer 3 2 : CubeRenderer ℝ)
          (calculateX Real.sin Real.cos (newCubeRenderer 3 2 : CubeRenderer ℝ) 1 0 (-20)) (1 / 80),
       halfHeightScreenY (newCubeRenderer 3 2 : CubeRenderer ℝ)
          (calculateY Real.sin Real.cos (newCubeRenderer 3 2 : CubeRenderer ℝ) 1 0 (-20)) (1 / 80),
       1 / 80) := by
  obtain ⟨hx, -, hz⟩ := calculate_new 3 2 1 0 (-20)
  have hd : (((newCubeRenderer 3 2 : CubeRenderer ℝ).distanceFromCam : Int) : ℝ) = 100 := by
    simp only [newCubeRenderer]; norm_num
  have h2 : halfWidthScreenX (newCubeRenderer 3 2 : CubeRenderer ℝ)
      (calculateX Real.sin Real.cos (newCubeRenderer 3 2 : CubeRenderer ℝ) 1 0 (-20)) (1 / 80)
      = 2 := by
    rw [hx]
    simp only [halfWidthScreenX, newCubeRenderer]
    exact staticCastInt_eq 2 (by norm_num) (by norm_num) (by norm_num)
  refine ⟨by rw [hz, hd]; norm_num, project_new_3x2, h2, ?_⟩
  rw [project_new_3x2, h2]
  intro h
  have h1 := congrArg (fun q : Option (Int × Int × ℝ) => q.map (fun r => r.1)) h
  simp only [Option.map_some'] at h1
  exact absurd (Option.some.inj h1) (by decide)

/-- C6, amended: for every state and every sample with shifted depth `> 0`,
`drawPoint` computes `screenx` as the truncation of
`width / 2 + zoomlevel * invZ * x' * 2` and `screeny` as the truncation of
`height / 2 + zoomlevel * invZ * y'`, where `invZ = 1 / shiftedZ`, `(x', y')` are
the rotated coordinates and `width / 2`, `height / 2` are the integer quotients
truncated toward zero; these are half the width and half the height when the
width and the height are even. -/
theorem screen_coordinates (sin cos : α → α) (s : CubeRenderer α) (x y z : α)
    (h : 0 < calculateZ sin cos s x y z + (s.distanceFromCam : α)) :
    project sin cos s x y z = some
      (staticCastInt (((s.width.tdiv 2 : Int) : α) + s.zoomlevel
          * (1 / (calculateZ sin cos s x y z + (s.distanceFromCam : α)))
          * calculateX sin cos s x y z * 2),
       staticCastInt (((s.height.tdiv 2 : Int) : α) + s.zoomlevel
          * (1 / (calculateZ sin cos s x y z + (s.distanceFromCam : α)))
          * calculateY sin cos s x y z),
       1 / (calculateZ sin cos s x y z + (s.distanceFromCam : α))) ∧
    (2 ∣ s.width ∧ 2 ∣ s.height → project sin cos s x y z = some
      (halfWidthScreenX s (calculateX sin cos s x y z)
          (1 / (calculateZ sin cos s x y z + (s.distanceFromCam : α))),
       halfHeightScreenY s (calculateY sin cos s x y z)
          (1 / (calculateZ sin cos s x y z + (s.distanceFromCam : α))),
       1 / (calculateZ sin cos s x y z + (s.distanceFromCam : α)))) := by
  refine ⟨project_of_pos sin cos s x y z h, ?_⟩
  rintro ⟨hw, hh⟩
  rw [project_of_pos sin cos s x y z h, halfWidthScreenX, halfHeightScreenY,
    tdiv_two_cast hw, tdiv_two_cast hh]

theorem screen_coordinates_witness :
    0 < calculateZ Real.sin Real.cos (defaultCubeRenderer : CubeRenderer ℝ) 0 0 (-20)
        + (((defaultCubeRenderer : CubeRenderer ℝ).distanceFromCam : Int) : ℝ) ∧
    project Real.sin Real.cos (defaultCubeRenderer : CubeRenderer ℝ) 0 0 (-20) = some
      (halfWidthScreenX defaultCubeRenderer
          (calculateX Real.sin Real.cos (defaultCubeRenderer : CubeRenderer ℝ) 0 0 (-20))
          (1 / (calculateZ Real.sin Real.cos (defaultCubeRenderer : CubeRenderer ℝ) 0 0 (-20)
              + (((defaultCubeRenderer : CubeRenderer ℝ).distanceFromCam : Int) : ℝ))),
       halfHeightScreenY defaultCubeRenderer
          (calculateY Real.sin Real.cos (defaultCubeRenderer : CubeRenderer ℝ) 0 0 (-20))
          (1 / (calculateZ Real.sin Real.cos (defaultCubeRenderer : CubeRenderer ℝ) 0 0 (-20)
              + (((defaultCubeRenderer : CubeRenderer ℝ).distanceFromCam : Int) : ℝ))),
       1 / (calculateZ Real.sin Real.cos (defaultCubeRenderer : CubeRenderer ℝ) 0 0 (-20)
              + (((defaultCubeRenderer : CubeRenderer ℝ).distanceFromCam : Int) : ℝ))) :=
  have hpos : 0 < calculateZ Real.sin Real.cos (defaultCubeRenderer : CubeRenderer ℝ) 0 0 (-20)
        + (((defaultCubeRenderer : CubeRenderer ℝ).distanceFromCam : Int) : ℝ) := by
    simp only [calculateZ, defaultCubeRenderer, newCubeRenderer, Real.sin_zero, Real.cos_zero]
    norm_num
  ⟨hpos, (screen_coordinates Real.sin Real.cos defaultCubeRenderer 0 0 (-20) hpos).2
    ⟨by decide, by decide⟩⟩

theorem project_default_front :
    project Real.sin Real.cos (defaultCubeRenderer : CubeRenderer ℝ) 0 0 (-20)
      = some (40, 12, 1 / 80) := by
  obtain ⟨hx, hy, hz⟩ := calculate_new 80 24 0 0 (-20)
  have hd : (((defaultCubeRenderer : CubeRenderer ℝ).distanceFromCam : Int) : ℝ) = 100 := by
    simp only [defaultCubeRenderer, newCubeRenderer]; norm_num
  unfold defaultCubeRenderer at hd ⊢
  rw [project_of_pos _ _ _ _ _ _ (by rw [hz, hd]; norm_num), hz, hx, hy, hd]
  have h3 : (newCubeRenderer 80 24 : CubeRenderer ℝ).width.tdiv 2 = 40 := by decide
  have h2 : (newCubeRenderer 80 24 : CubeRenderer ℝ).height.tdiv 2 = 12 := by decide
  have hzoom : (newCubeRenderer 80 24 : CubeRenderer ℝ).zoomlevel = 30 := rfl
  rw [h3, h2, hzoom]
  rw [staticCastInt_eq 40 (by norm_num) (by norm_num) (by norm_num),
    staticCastInt_eq 12 (by norm_num) (by norm_num) (by norm_num)]
  norm_num

theorem plot_of_lt (s : CubeRenderer α) (sx sy : Int) (oz : α) (c : Char) (i : Nat) (d : α)
    (hx : 0 ≤ sx) (hxw : sx < s.width) (hy : 0 ≤ sy) (hyh : sy < s.height)
    (hi : sy * s.width + sx = (i : Int)) (hd : s.zBuffer[i]? = some d) (hlt : d < oz)
    (hb : i < s.buffer.length) :
    plot s sx sy oz c
      = .ok { s with zBuffer := s.zBuffer.set i oz, buffer := s.buffer.set i c } := by
  have hbounds : ¬ (sx < 0 ∨ sx ≥ s.width ∨ sy < 0 ∨ sy ≥ s.height) := by
    simp only [not_or, not_lt, ge_iff_le, not_le]
    exact ⟨hx, hxw, hy, hyh⟩
  have hz : i < s.zBuffer.length := by
    rcases Nat.lt_or_ge i s.zBuffer.length with h | h
    · exact h
    · rw [List.getElem?_eq_none h] at hd; cases hd
  have hneg : ¬ ((i : Int) < 0) := by omega
  unfold plot
  simp only [if_neg hbounds, hi, vectorGet, vectorSet, if_neg hneg, Int.toNat_ofNat, hd,
    gt_iff_lt, if_pos hlt, if_pos hz, if_pos hb]

theorem plot_of_not_lt (s : CubeRenderer α) (sx sy : Int) (oz : α) (c : Char) (i : Nat) (d : α)
    (hi : sy * s.width + sx = (i : Int)) (hd : s.zBuffer[i]? = some d) (hlt : ¬ d < oz) :
    plot s sx sy oz c = .ok s := by
  have hneg : ¬ ((i : Int) < 0) := by omega
  unfold plot
  by_cases hbounds : sx < 0 ∨ sx ≥ s.width ∨ sy < 0 ∨ sy ≥ s.height
  · rw [if_pos hbounds]
  · simp only [if_neg hbounds, hi, vectorGet, if_neg hneg, Int.toNat_ofNat, hd,
      gt_iff_lt, if_neg hlt]

theorem plot_of_outside (s : CubeRenderer α) (sx sy : Int) (oz : α) (c : Char)
    (h : ¬ (0 ≤ sx ∧ sx < s.width ∧ 0 ≤ sy ∧ sy < s.height)) :
    plot s sx sy oz c = .ok s := by
  have hbounds : sx < 0 ∨ sx ≥ s.width ∨ sy < 0 ∨ sy ≥ s.height := by
    by_contra hc
    simp only [not_or, not_lt, ge_iff_le, not_le] at hc
    exact h hc
  unfold plot
  rw [if_pos hbounds]

/-- C7: the renderer built by `main` has `A = B = C = 0`, `cubeWidth = 20`,
`distanceFromCam = 100`, `zoomlevel = 30`, `width = 80`, `height = 24` and
all-zero, all-blank buffers of length 1920; there the front-face sample
`(0, 0, -20)` projects to `(40, 12)` with inverse depth `1/80`, and `drawPoint`
stores `1/80` and the glyph at flat index `12 * 80 + 40 = 1000`, leaving
every other cell as it was. -/
theorem front_face_centre (character : Char) :
    ((defaultCubeRenderer : CubeRenderer ℝ).A = 0 ∧ (defaultCubeRenderer : CubeRenderer ℝ).B = 0 ∧
      (defaultCubeRenderer : CubeRenderer ℝ).C = 0 ∧
      (defaultCubeRenderer : CubeRenderer ℝ).cubeWidth = 20 ∧
      (defaultCubeRenderer : CubeRenderer ℝ).distanceFromCam = 100 ∧
      (defaultCubeRenderer : CubeRenderer ℝ).zoomlevel = 30 ∧
      (defaultCubeRenderer : CubeRenderer ℝ).width = 80 ∧
      (defaultCubeRenderer : CubeRenderer ℝ).height = 24 ∧
      (defaultCubeRenderer : CubeRenderer ℝ).zBuffer = List.replicate 1920 0 ∧
      (defaultCubeRenderer : CubeRenderer ℝ).buffer = List.replicate 1920 ' ') ∧
    project Real.sin Real.cos (defaultCubeRenderer : CubeRenderer ℝ) 0 0 (-20)
      = some (40, 12, 1 / 80) ∧
    (12 : Int) * (defaultCubeRenderer : CubeRenderer ℝ).width + 40 = 1000 ∧
    drawPoint Real.sin Real.cos (defaultCubeRenderer : CubeRenderer ℝ) 0 0 (-20) character
      = .ok { (defaultCubeRenderer : CubeRenderer ℝ) with
              zBuffer := (List.replicate 1920 (0 : ℝ)).set 1000 (1 / 80)
              buffer := (List.replicate 1920 ' ').set 1000 character } := by
  refine ⟨⟨rfl, rfl, rfl, rfl, rfl, rfl, rfl, rfl, rfl, rfl⟩, project_default_front, by decide, ?_⟩
  unfold drawPoint
  rw [project_default_front]
  exact plot_of_lt defaultCubeRenderer 40 12 (1 / 80) character 1000 0 (by decide) (by decide)
    (by decide) (by decide) (by decide) (List.getElem?_replicate_of_lt (by decide))
    (by norm_num) (by rw [show (defaultCubeRenderer : CubeRenderer ℝ).buffer
      = List.replicate 1920 ' ' from rfl, List.length_replicate]; decide)

/-! ## Depth-tested plotting -/

theorem project_some (sin cos : α → α) (s : CubeRenderer α) (x y z : α) {sx sy : Int} {oz : α}
    (h : project sin cos s x y z = some (sx, sy, oz)) :
    0 < shiftedZ sin cos s x y z ∧ oz = 1 / shiftedZ sin cos s x y z := by
  unfold project at h
  simp only at h
  split at h
  · cases h
  · rename_i hz
    simp only [Option.some.injEq, Prod.mk.injEq] at h
    exact ⟨not_le.mp hz, h.2.2.symm⟩

theorem index_lt_of_bounds {w h sx sy : Int} (hx : 0 ≤ sx) (hxw : sx < w) (hy : 0 ≤ sy)
    (hyh : sy < h) : 0 ≤ sy * w + sx ∧ sy * w + sx < w * h := by
  have hw : 0 < w := lt_of_le_of_lt hx hxw
  constructor
  · positivity
  · nlinarith [mul_le_mul_of_nonneg_right (show sy + 1 ≤ h by omega) hw.le]

/-- Effect of one `drawPoint` on a well-formed state: it returns a state of the
same scene, and cell `i` is overwritten exactly when the sample is accepted at
`i` with an inverse depth above the stored one. -/
theorem drawPoint_effect (sin cos : α → α) (s : CubeRenderer α) (hs : WellFormed s)
    (p : Sample α) :
    ∃ s1, drawPoint sin cos s p.x p.y p.z p.character = .ok s1 ∧ SameScene s s1 ∧
      ∀ (i : Nat) (d : α) (g : Char), s.zBuffer[i]? = some d → s.buffer[i]? = some g →
        (acceptedIndex sin cos s p = some (i : Int) ∧ d < inverseDepth sin cos s p →
          s1.zBuffer[i]? = some (inverseDepth sin cos s p) ∧ s1.buffer[i]? = some p.character) ∧
        (¬ (acceptedIndex sin cos s p = some (i : Int) ∧ d < inverseDepth sin cos s p) →
          s1.zBuffer[i]? = some d ∧ s1.buffer[i]? = some g) := by
  unfold drawPoint acceptedIndex inverseDepth
  cases hp : project sin cos s p.x p.y p.z with
  | none =>
    refine ⟨s, rfl, SameScene.refl s, ?_⟩
    intro i d g hd hg
    refine ⟨?_, fun _ => ⟨hd, hg⟩⟩
    rintro ⟨h, -⟩
    cases h
  | some r =>
    obtain ⟨sx, sy, oz⟩ := r
    obtain ⟨-, hoz⟩ := project_some sin cos s p.x p.y p.z hp
    simp only
    rw [← hoz]
    by_cases hin : 0 ≤ sx ∧ sx < s.width ∧ 0 ≤ sy ∧ sy < s.height
    · obtain ⟨hx, hxw, hy, hyh⟩ := hin
      obtain ⟨h0, hlt⟩ := index_lt_of_bounds hx hxw hy hyh
      obtain ⟨j, hj⟩ := Int.eq_ofNat_of_zero_le h0
      have hjlen : j < (s.width * s.height).toNat := by omega
      have hjz : j < s.zBuffer.length := by rw [hs.1]; exact hjlen
      have hjb : j < s.buffer.length := by rw [hs.2]; exact hjlen
      rw [if_pos ⟨hx, hxw, hy, hyh⟩, hj]
      by_cases hlt : s.zBuffer[j] < oz
      · have hplot := plot_of_lt s sx sy oz p.character j s.zBuffer[j] hx hxw hy hyh hj
          (List.getElem?_eq_getElem hjz) hlt hjb
        refine ⟨_, hplot, plot_sameScene s sx sy oz p.character hplot, ?_⟩
        intro i d g hd hg
        by_cases hij : i = j
        · subst hij
          rw [List.getElem?_eq_getElem hjz] at hd
          cases hd
          simp only [hlt, and_self, not_true_eq_false, false_implies, and_true, true_implies]
          simp [hjz, hjb]
        · have hne : ¬ (some (j : Int) = some (i : Int)) := by
            simp only [Option.some.injEq, Nat.cast_inj]; exact fun h => hij h.symm
          simp only [hne, false_and, false_implies, not_false_eq_true, true_implies, true_and]
          rw [List.getElem?_set_ne (Ne.symm hij), List.getElem?_set_ne (Ne.symm hij)]
          exact ⟨hd, hg⟩
      · have hplot := plot_of_not_lt s sx sy oz p.character j s.zBuffer[j] hj
          (List.getElem?_eq_getElem hjz) hlt
        refine ⟨s, hplot, SameScene.refl s, ?_⟩
        intro i d g hd hg
        refine ⟨?_, fun _ => ⟨hd, hg⟩⟩
        rintro ⟨hij, hdlt⟩
        simp only [Option.some.injEq, Nat.cast_inj] at hij
        subst hij
        rw [List.getElem?_eq_getElem hjz] at hd
        cases hd
        exact absurd hdlt hlt
    · rw [if_neg hin]
      refine ⟨s, plot_of_outside s sx sy oz p.character hin, SameScene.refl s, ?_⟩
      intro i d g hd hg
      refine ⟨?_, fun _ => ⟨hd, hg⟩⟩
      rintro ⟨h, -⟩
      cases h

theorem acceptedIndex_congr (sin cos : α → α) {s t : CubeRenderer α} (h : SameScene s t)
    (p : Sample α) : acceptedIndex sin cos t p = acceptedIndex sin cos s p := by
  unfold acceptedIndex
  rw [project_congr sin cos h, h.1, h.2.1]

theorem inverseDepth_congr (sin cos : α → α) {s t : CubeRenderer α} (h : SameScene s t)
    (p : Sample α) : inverseDepth sin cos t p = inverseDepth sin cos s p := by
  obtain ⟨-, -, a3, a4, -, -, a7, -, -, -⟩ := h
  simp only [inverseDepth, shiftedZ, calculateZ, a3, a4, a7]

theorem inverseDepth_pos_of_accepted (sin cos : α → α) (s : CubeRenderer α) (p : Sample α)
    {j : Int} (h : acceptedIndex sin cos s p = some j) : 0 < inverseDepth sin cos s p := by
  unfold acceptedIndex at h
  cases hp : project sin cos s p.x p.y p.z with
  | none => rw [hp] at h; cases h
  | some r =>
    obtain ⟨sx, sy, oz⟩ := r
    obtain ⟨hpos, -⟩ := project_some sin cos s p.x p.y p.z hp
    unfold inverseDepth
    exact one_div_pos.mpr hpos

/-- Effect of a sequence of `drawPoint` calls on one cell of a well-formed
state: either no accepted sample beats the stored depth and the cell is kept, or
the cell holds the inverse depth and glyph of an accepted sample that beats the
stored depth and is beaten by no accepted sample of the sequence. -/
theorem drawPoints_effect (sin cos : α → α) (ps : List (Sample α)) :
    ∀ s : CubeRenderer α, WellFormed s →
    ∃ s1, drawPoints sin cos s ps = .ok s1 ∧ SameScene s s1 ∧
      ∀ (i : Nat) (d : α) (g : Char), s.zBuffer[i]? = some d → s.buffer[i]? = some g →
        ((∀ p ∈ ps, acceptedIndex sin cos s p = some (i : Int) → inverseDepth sin cos s p ≤ d) ∧
          s1.zBuffer[i]? = some d ∧ s1.buffer[i]? = some g) ∨
        (∃ q ∈ ps, acceptedIndex sin cos s q = some (i : Int) ∧ d < inverseDepth sin cos s q ∧
          (∀ p ∈ ps, acceptedIndex sin cos s p = some (i : Int) →
            inverseDepth sin cos s p ≤ inverseDepth sin cos s q) ∧
          s1.zBuffer[i]? = some (inverseDepth sin cos s q) ∧ s1.buffer[i]? = some q.character) := by
  induction ps with
  | nil =>
    intro s _
    refine ⟨s, rfl, SameScene.refl s, ?_⟩
    intro i d g hd hg
    left
    exact ⟨fun p hp => absurd hp (List.not_mem_nil p), hd, hg⟩
  | cons p ps ih =>
    intro s hs
    obtain ⟨s1, h1, hsame1, hcell1⟩ := drawPoint_effect sin cos s hs p
    obtain ⟨s2, h2, hsame2, hcell2⟩ := ih s1 (hsame1.wellFormed hs)
    refine ⟨s2, ?_, hsame1.trans hsame2, ?_⟩
    · simp only [drawPoints, h1]; exact h2
    · intro i d g hd hg
      have hacc : ∀ q, acceptedIndex sin cos s1 q = acceptedIndex sin cos s q :=
        acceptedIndex_congr sin cos hsame1
      have hinv : ∀ q, inverseDepth sin cos s1 q = inverseDepth sin cos s q :=
        inverseDepth_congr sin cos hsame1
      obtain ⟨hwin, hkeep⟩ := hcell1 i d g hd hg
      by_cases hp : acceptedIndex sin cos s p = some (i : Int) ∧ d < inverseDepth sin cos s p
      · obtain ⟨hz1, hb1⟩ := hwin hp
        rcases hcell2 i _ _ hz1 hb1 with ⟨hall, hz2, hb2⟩ | ⟨q, hq, hqa, hqlt, hqmax, hz2, hb2⟩
        · right
          refine ⟨p, List.mem_cons_self p ps, hp.1, hp.2, ?_, hz2, hb2⟩
          intro r hr hra
          rcases List.mem_cons.mp hr with rfl | hr
          · exact le_refl _
          · have := hall r hr (by rw [hacc]; exact hra)
            rwa [hinv] at this
        · rw [hacc] at hqa
          rw [hinv] at hqlt hz2
          right
          refine ⟨q, List.mem_cons_of_mem p hq, hqa, lt_trans hp.2 hqlt, ?_, hz2, hb2⟩
          intro r hr hra
          rcases List.mem_cons.mp hr with rfl | hr
          · exact le_of_lt hqlt
          · have := hqmax r hr (by rw [hacc]; exact hra)
            rwa [hinv, hinv] at this
      · obtain ⟨hz1, hb1⟩ := hkeep hp
        have hple : acceptedIndex sin cos s p = some (i : Int) → inverseDepth sin cos s p ≤ d := by
          intro ha
          exact not_lt.mp (fun hlt => hp ⟨ha, hlt⟩)
        rcases hcell2 i _ _ hz1 hb1 with ⟨hall, hz2, hb2⟩ | ⟨q, hq, hqa, hqlt, hqmax, hz2, hb2⟩
        · left
          refine ⟨?_, hz2, hb2⟩
          intro r hr hra
          rcases List.mem_cons.mp hr with rfl | hr
          · exact hple hra
          · have := hall r hr (by rw [hacc]; exact hra)
            rwa [hinv] at this
        · rw [hacc] at hqa
          rw [hinv] at hqlt hz2
          right
          refine ⟨q, List.mem_cons_of_mem p hq, hqa, hqlt, ?_, hz2, hb2⟩
          intro r hr hra
          rcases List.mem_cons.mp hr with rfl | hr
          · exact le_trans (hple hra) (le_of_lt hqlt)
          · have := hqmax r hr (by rw [hacc]; exact hra)
            rwa [hinv, hinv] at this

/-- C1: on a freshly reset buffer (all depths 0, all glyphs blank, length
`width * height`), for every index `i` of the buffer and every finite sequence
of samples, `drawPoints` returns a state in which: if no sample of the sequence
is accepted at `i`, cell `i` still holds depth 0 and the blank glyph; otherwise
there is a sample `q` of the sequence accepted at `i` whose inverse depth is
the maximum over the samples accepted at `i`, and cell `i` holds that inverse
depth and the glyph of `q`. -/
theorem depth_test_keeps_nearest (sin cos : α → α) (s : CubeRenderer α)
    (hz : s.zBuffer = List.replicate (s.width * s.height).toNat 0)
    (hb : s.buffer = List.replicate (s.width * s.height).toNat ' ')
    (ps : List (Sample α)) (i : Nat) (hi : i < (s.width * s.height).toNat) :
    ∃ s1, drawPoints sin cos s ps = .ok s1 ∧
      ((∀ p ∈ ps, acceptedIndex sin cos s p ≠ some (i : Int)) →
        s1.zBuffer[i]? = some 0 ∧ s1.buffer[i]? = some ' ') ∧
      ((∃ p ∈ ps, acceptedIndex sin cos s p = some (i : Int)) →
        ∃ q ∈ ps, acceptedIndex sin cos s q = some (i : Int) ∧
          (∀ p ∈ ps, acceptedIndex sin cos s p = some (i : Int) →
            inverseDepth sin cos s p ≤ inverseDepth sin cos s q) ∧
          s1.zBuffer[i]? = some (inverseDepth sin cos s q) ∧
          s1.buffer[i]? = some q.character) := by
  have hs : WellFormed s := by
    constructor
    · rw [hz, List.length_replicate]
    · rw [hb, List.length_replicate]
  have hd : s.zBuffer[i]? = some 0 := by
    rw [hz]; exact List.getElem?_replicate_of_lt hi
  have hg : s.buffer[i]? = some ' ' := by
    rw [hb]; exact List.getElem?_replicate_of_lt hi
  obtain ⟨s1, h1, -, hcell⟩ := drawPoints_effect sin cos ps s hs
  refine ⟨s1, h1, ?_, ?_⟩
  · intro hnone
    rcases hcell i 0 ' ' hd hg with ⟨-, hz1, hb1⟩ | ⟨q, hq, hqa, -⟩
    · exact ⟨hz1, hb1⟩
    · exact absurd hqa (hnone q hq)
  · rintro ⟨p, hp, hpa⟩
    rcases hcell i 0 ' ' hd hg with ⟨hall, -, -⟩ | ⟨q, hq, hqa, -, hqmax, hz1, hb1⟩
    · exact absurd (hall p hp hpa) (not_le.mpr (inverseDepth_pos_of_accepted sin cos s p hpa))
    · exact ⟨q, hq, hqa, hqmax, hz1, hb1⟩

theorem depth_test_keeps_nearest_witness :
    ∃ s1, drawPoints Real.sin Real.cos (newCubeRenderer 3 2 : CubeRenderer ℝ)
        [⟨1, 0, -20, '@'⟩, ⟨1, 0, 20, '.'⟩] = .ok s1 ∧
      ((∀ p ∈ [(⟨1, 0, -20, '@'⟩ : Sample ℝ), ⟨1, 0, 20, '.'⟩],
          acceptedIndex Real.sin Real.cos (newCubeRenderer 3 2) p ≠ some ((4 : Nat) : Int)) →
        s1.zBuffer[4]? = some 0 ∧ s1.buffer[4]? = some ' ') ∧
      ((∃ p ∈ [(⟨1, 0, -20, '@'⟩ : Sample ℝ), ⟨1, 0, 20, '.'⟩],
          acceptedIndex Real.sin Real.cos (newCubeRenderer 3 2) p = some ((4 : Nat) : Int)) →
        ∃ q ∈ [(⟨1, 0, -20, '@'⟩ : Sample ℝ), ⟨1, 0, 20, '.'⟩],
          acceptedIndex Real.sin Real.cos (newCubeRenderer 3 2) q = some ((4 : Nat) : Int) ∧
          (∀ p ∈ [(⟨1, 0, -20, '@'⟩ : Sample ℝ), ⟨1, 0, 20, '.'⟩],
            acceptedIndex Real.sin Real.cos (newCubeRenderer 3 2) p = some ((4 : Nat) : Int) →
            inverseDepth Real.sin Real.cos (newCubeRenderer 3 2) p
              ≤ inverseDepth Real.sin Real.cos (newCubeRenderer 3 2) q) ∧
          s1.zBuffer[4]? = some (inverseDepth Real.sin Real.cos (newCubeRenderer 3 2) q) ∧
          s1.buffer[4]? = some q.character) :=
  depth_test_keeps_nearest Real.sin Real.cos (newCubeRenderer 3 2) rfl rfl
    [⟨1, 0, -20, '@'⟩, ⟨1, 0, 20, '.'⟩] 4 (by decide)

/-! ## Compositor -/

theorem take_drop_eq_filterMap (buffer : List Char) (a : Nat) :
    ∀ n : Nat, (buffer.drop a).take n = (List.range n).filterMap (fun x => buffer[a + x]?) := by
  intro n
  induction n with
  | zero => simp
  | succ n ih =>
    rw [List.take_succ, ih, List.range_succ, List.filterMap_append, List.getElem?_drop]
    congr 1

theorem rowText_eq_take_drop (w : Nat) (buffer : List Char) (y : Nat) :
    rowText w buffer y = (buffer.drop (y * w)).take w := by
  rw [take_drop_eq_filterMap]; rfl

theorem rowText_length (w : Nat) (buffer : List Char) (y : Nat)
    (h : (y + 1) * w ≤ buffer.length) : (rowText w buffer y).length = w := by
  rw [rowText_eq_take_drop, List.length_take, List.length_drop]
  have : (y + 1) * w = y * w + w := by ring
  omega

theorem appendRow_eq (frame buffer : List Char) (y w : Nat) (h : (y + 1) * w ≤ buffer.length) :
    appendRow frame buffer ((y : Int) * (w : Int)) (w : Int) = some (frame ++ rowText w buffer y) := by
  have h1 : (y + 1) * w = y * w + w := by ring
  have hcond : ¬ ((y : Int) * (w : Int) < 0 ∨ (w : Int) < 0
      ∨ (buffer.length : Int) < (y : Int) * (w : Int) + (w : Int)) := by
    have h2 : ((y * w + w : Nat) : Int) ≤ (buffer.length : Int) := by
      exact_mod_cast (h1 ▸ h)
    push_cast at h2
    have h3 : (0 : Int) ≤ (y : Int) * (w : Int) := by positivity
    omega
  unfold appendRow
  rw [if_neg hcond, rowText_eq_take_drop]
  have h4 : ((y : Int) * (w : Int)).toNat = y * w := by
    rw [← Nat.cast_mul]; exact Int.toNat_ofNat _
  rw [h4, Int.toNat_ofNat]

theorem displayRows_eq (s : CubeRenderer α) (w : Nat) (hw : s.width = (w : Int)) :
    ∀ (n y : Nat) (frame : List Char), (y + n) * w ≤ s.buffer.length →
      displayRows s n (y : Int) frame
        = .ok (frame ++ (List.range n).flatMap (fun k => rowText w s.buffer (y + k) ++ ['\n'])) := by
  intro n
  induction n with
  | zero => intro y frame _; simp [displayRows]
  | succ n ih =>
    intro y frame h
    have hrow : (y + 1) * w ≤ s.buffer.length := by
      refine le_trans (Nat.mul_le_mul_right w ?_) h
      omega
    have hrest : (y + 1 + n) * w ≤ s.buffer.length := by
      have : y + 1 + n = y + (n + 1) := by omega
      rw [this]; exact h
    unfold displayRows
    rw [hw, appendRow_eq frame s.buffer y w hrow]
    simp only
    have hy : (y : Int) + 1 = ((y + 1 : Nat) : Int) := by push_cast; rfl
    have hf : (fun k => rowText w s.buffer (y + 1 + k) ++ ['\n'])
        = (fun k => rowText w s.buffer (y + (k + 1)) ++ ['\n']) := by
      funext k
      rw [Nat.add_right_comm y 1 k, Nat.add_assoc]
    rw [hy, ih (y + 1) _ hrest, hf, List.range_succ_eq_map, List.flatMap_cons, List.flatMap_map]
    simp only [List.append_assoc, Nat.add_zero, Nat.succ_eq_add_one, Function.comp_def]

theorem flatMap_rows_length (w : Nat) (buffer : List Char) :
    ∀ n : Nat, n * w ≤ buffer.length →
      ((List.range n).flatMap (fun k => rowText w buffer k ++ ['\n'])).length = n * (w + 1) := by
  intro n
  induction n with
  | zero => intro _; simp
  | succ n ih =>
    intro h
    have hn : n * w ≤ buffer.length := le_trans (Nat.mul_le_mul_right w (Nat.le_succ n)) h
    rw [List.range_succ, List.flatMap_append, List.length_append, ih hn, List.flatMap_singleton,
      List.length_append, rowText_length w buffer n h]
    simp only [List.length_singleton]
    ring

/-- Every well-shaped state displays: non-negative dimensions and a glyph buffer
of length `width * height` give the frame of the specification's words. -/
theorem display_eq (s : CubeRenderer α) (hw : 0 ≤ s.width) (hh : 0 ≤ s.height)
    (hlen : (s.buffer.length : Int) = s.width * s.height) :
    display s = .ok (String.mk (frameText s.width.toNat s.height.toNat s.buffer)) := by
  obtain ⟨w, hw'⟩ := Int.eq_ofNat_of_zero_le hw
  obtain ⟨h, hh'⟩ := Int.eq_ofNat_of_zero_le hh
  have hl : h * w ≤ s.buffer.length := by
    rw [hw', hh'] at hlen
    have : (s.buffer.length : Int) = ((w * h : Nat) : Int) := by rw [hlen]; push_cast; rfl
    have := Int.ofNat_inj.mp this
    rw [this, Nat.mul_comm]
  have hrows := displayRows_eq s w hw' h 0 cursorHome (by simpa using hl)
  unfold display
  rw [hh', Int.toNat_ofNat]
  have h0 : ((0 : Nat) : Int) = 0 := rfl
  rw [h0] at hrows
  rw [hrows, hw', Int.toNat_ofNat]
  simp only [frameText, Nat.zero_add]

/-- C8: for every state with non-negative width and height and a glyph buffer
of length `width * height`, `display` builds the cursor-home prefix `ESC [ H`
followed, for each row `y = 0 .. height-1` in order, by the glyphs
`buffer[y*width] .. buffer[y*width + width - 1]` and one line break, and nothing
else: its length is `3 + height * (width + 1)`. For the all-blank 3 x 2 buffer
the frame is `ESC [ H`, three blanks, line break, three blanks, line break. -/
theorem display_frame (s : CubeRenderer α) (hw : 0 ≤ s.width) (hh : 0 ≤ s.height)
    (hlen : (s.buffer.length : Int) = s.width * s.height) :
    display s = .ok (String.mk (frameText s.width.toNat s.height.toNat s.buffer)) ∧
    (frameText s.width.toNat s.height.toNat s.buffer).length
      = 3 + s.height.toNat * (s.width.toNat + 1) ∧
    display (newCubeRenderer 3 2 : CubeRenderer α) = .ok "\x1b[H   \n   \n" := by
  refine ⟨display_eq s hw hh hlen, ?_, ?_⟩
  · have hl : s.height.toNat * s.width.toNat ≤ s.buffer.length := by
      have h1 : ((s.height.toNat * s.width.toNat : Nat) : Int) = (s.buffer.length : Int) := by
        push_cast
        rw [Int.toNat_of_nonneg hw, Int.toNat_of_nonneg hh, hlen, mul_comm]
      exact le_of_eq (Int.ofNat_inj.mp h1)
    unfold frameText
    rw [List.length_append, flatMap_rows_length _ _ _ hl]
    rfl
  · rw [display_eq (newCubeRenderer 3 2 : CubeRenderer α) (by simp [newCubeRenderer])
      (by simp [newCubeRenderer]) (by simp [newCubeRenderer])]
    rfl

theorem display_frame_witness :
    display (newCubeRenderer 3 2 : CubeRenderer ℚ)
      = .ok (String.mk (frameText 3 2 (List.replicate 6 ' '))) ∧
    (frameText 3 2 (List.replicate 6 ' ')).length = 3 + 2 * (3 + 1) ∧
    display (newCubeRenderer 3 2 : CubeRenderer ℚ) = .ok "\x1b[H   \n   \n" :=
  display_frame (newCubeRenderer 3 2 : CubeRenderer ℚ) (by decide) (by decide) (by decide)

/-! ## Frame buffer reset -/

/-- C9: whatever the two buffers held, after the reset step at the start of a
loop iteration every depth entry is 0 and every glyph entry is the blank
character, both buffers keep their lengths (so a length of `width * height` is
kept), and no other field changes. -/
theorem resetBuffers_clears (s : CubeRenderer α) :
    (resetBuffers s).zBuffer = List.replicate s.zBuffer.length 0 ∧
    (resetBuffers s).buffer = List.replicate s.buffer.length ' ' ∧
    (∀ d ∈ (resetBuffers s).zBuffer, d = 0) ∧
    (∀ g ∈ (resetBuffers s).buffer, g = ' ') ∧
    SameScene s (resetBuffers s) ∧
    (WellFormed s → WellFormed (resetBuffers s)) := by
  have hz : (resetBuffers s).zBuffer = List.replicate s.zBuffer.length 0 := by
    simp only [resetBuffers]
    exact List.map_const' _ _
  have hb : (resetBuffers s).buffer = List.replicate s.buffer.length ' ' := by
    simp only [resetBuffers]
    exact List.map_const' _ _
  have hsame : SameScene s (resetBuffers s) := by
    simp [SameScene, resetBuffers]
  refine ⟨hz, hb, ?_, ?_, hsame, hsame.wellFormed⟩
  · intro d hd
    rw [hz] at hd
    exact List.eq_of_mem_replicate hd
  · intro g hg
    rw [hb] at hg
    exact List.eq_of_mem_replicate hg

/-! ## Rasterizer loops and the animation loop -/

theorem increment_pos : (0 : α) < increment := by
  unfold increment; norm_num

theorem drawPoints_ok (sin cos : α → α) (s : CubeRenderer α) (hs : WellFormed s)
    (ps : List (Sample α)) : ∃ s1, drawPoints sin cos s ps = .ok s1 ∧ SameScene s s1 := by
  obtain ⟨s1, h1, hsame, -⟩ := drawPoints_effect sin cos ps s hs
  exact ⟨s1, h1, hsame⟩

theorem resetBuffers_sameScene (s : CubeRenderer α) : SameScene s (resetBuffers s) := by
  simp [SameScene, resetBuffers]

theorem CubeRenderer.ext_fields {s t : CubeRenderer α} (h : SameScene s t)
    (hz : t.zBuffer = s.zBuffer) (hb : t.buffer = s.buffer) : t = s := by
  obtain ⟨a1, a2, a3, a4, a5, a6, a7, a8, -, -⟩ := h
  cases s; cases t
  simp only at a1 a2 a3 a4 a5 a6 a7 a8 hz hb
  simp only [CubeRenderer.mk.injEq]
  exact ⟨a1, a2, hz, hb, a3, a4, a5, a6, a7, a8⟩

theorem newCubeRenderer_wellFormed (w h : Int) :
    WellFormed (newCubeRenderer w h : CubeRenderer α) := by
  simp [WellFormed, newCubeRenderer]

/-- Result of `drawPoint` on a well-formed state, case by case: a sample that is
not accepted leaves the state as it is; a sample accepted at index `j`
overwrites cell `j` of both buffers when its inverse depth is above the stored
depth and leaves the state as it is otherwise. -/
theorem drawPoint_eq (sin cos : α → α) (s : CubeRenderer α) (hs : WellFormed s)
    (x y z : α) (c : Char) :
    (acceptedIndex sin cos s ⟨x, y, z, c⟩ = none → drawPoint sin cos s x y z c = .ok s) ∧
    (∀ j : Int, acceptedIndex sin cos s ⟨x, y, z, c⟩ = some j →
      0 ≤ j ∧ j < s.width * s.height ∧
      ∃ d, s.zBuffer[j.toNat]? = some d ∧ j.toNat < s.buffer.length ∧
        (d < inverseDepth sin cos s ⟨x, y, z, c⟩ →
          drawPoint sin cos s x y z c = .ok { s with
            zBuffer := s.zBuffer.set j.toNat (inverseDepth sin cos s ⟨x, y, z, c⟩)
            buffer := s.buffer.set j.toNat c }) ∧
        (¬ d < inverseDepth sin cos s ⟨x, y, z, c⟩ → drawPoint sin cos s x y z c = .ok s)) := by
  unfold drawPoint acceptedIndex inverseDepth
  cases hp : project sin cos s x y z with
  | none =>
    refine ⟨fun _ => rfl, ?_⟩
    intro j hj
    cases hj
  | some r =>
    obtain ⟨sx, sy, oz⟩ := r
    obtain ⟨-, hoz⟩ := project_some sin cos s x y z hp
    simp only
    rw [← hoz]
    by_cases hin : 0 ≤ sx ∧ sx < s.width ∧ 0 ≤ sy ∧ sy < s.height
    · obtain ⟨hx, hxw, hy, hyh⟩ := hin
      obtain ⟨h0, hlt⟩ := index_lt_of_bounds hx hxw hy hyh
      obtain ⟨i, hi⟩ := Int.eq_ofNat_of_zero_le h0
      have hilen : i < (s.width * s.height).toNat := by omega
      have hiz : i < s.zBuffer.length := by rw [hs.1]; exact hilen
      have hib : i < s.buffer.length := by rw [hs.2]; exact hilen
      rw [if_pos ⟨hx, hxw, hy, hyh⟩]
      refine ⟨fun h => (by cases h), ?_⟩
      intro j hj
      have hji : j = (i : Int) := by
        rw [← hi]; exact (Option.some.inj hj).symm
      subst hji
      rw [Int.toNat_ofNat]
      refine ⟨by omega, by omega, s.zBuffer[i], List.getElem?_eq_getElem hiz, hib, ?_, ?_⟩
      · intro hd
        exact plot_of_lt s sx sy oz c i s.zBuffer[i] hx hxw hy hyh hi
          (List.getElem?_eq_getElem hiz) hd hib
      · intro hd
        exact plot_of_not_lt s sx sy oz c i s.zBuffer[i] hi (List.getElem?_eq_getElem hiz) hd
    · rw [if_neg hin]
      refine ⟨fun _ => plot_of_outside s sx sy oz c hin, ?_⟩
      intro j hj
      cases hj

/-- Every sample of the constructor's state over the reals with positive shifted
depth `z + 100` projects by the formulas of lines 133-135 at angle zero. -/
theorem project_new (w h : Int) (x y z : ℝ) (hz : 0 < z + 100) :
    project Real.sin Real.cos (newCubeRenderer w h : CubeRenderer ℝ) x y z = some
      (staticCastInt (((w.tdiv 2 : Int) : ℝ) + 30 * (1 / (z + 100)) * x * 2),
       staticCastInt (((h.tdiv 2 : Int) : ℝ) + 30 * (1 / (z + 100)) * y),
       1 / (z + 100)) := by
  obtain ⟨hx, hy, hzz⟩ := calculate_new w h x y z
  have hd : (((newCubeRenderer w h : CubeRenderer ℝ).distanceFromCam : Int) : ℝ) = 100 := by
    simp only [newCubeRenderer]; norm_num
  rw [project_of_pos _ _ _ _ _ _ (by rw [hzz, hd]; exact hz), hzz, hx, hy, hd]
  rfl

/-- C13: the outcome of the projection (rejection, or the screen coordinates
and the inverse depth), the index at which the sample is accepted and its
inverse depth are the same in a state and in the state obtained from it by
replacing the contents of the depth buffer and of the glyph buffer by anything:
they depend on the sample, the angles and the configuration only. -/
theorem projection_ignores_buffers (sin cos : α → α) (s : CubeRenderer α) (zb : List α)
    (b : List Char) (x y z : α) (character : Char) :
    project sin cos { s with zBuffer := zb, buffer := b } x y z = project sin cos s x y z ∧
    acceptedIndex sin cos { s with zBuffer := zb, buffer := b } ⟨x, y, z, character⟩
      = acceptedIndex sin cos s ⟨x, y, z, character⟩ ∧
    inverseDepth sin cos { s with zBuffer := zb, buffer := b } ⟨x, y, z, character⟩
      = inverseDepth sin cos s ⟨x, y, z, character⟩ :=
  ⟨rfl, rfl, rfl⟩

/-- C14: on every state whose two buffers have length `width * height`, and for
every sample, `drawPoint` returns a state (no access outside a buffer); a sample
that is not accepted (behind the camera, or `screenx`/`screeny` outside
`[0, width) x [0, height)`) leaves the state untouched, and a sample accepted at
`index = screeny * width + screenx` has `0 <= index < width * height`, inside
both buffers, and no other cell of either buffer is changed. -/
theorem drawPoint_accesses_in_range (sin cos : α → α) (s : CubeRenderer α) (hs : WellFormed s)
    (x y z : α) (character : Char) :
    ∃ s1, drawPoint sin cos s x y z character = .ok s1 ∧
      (acceptedIndex sin cos s ⟨x, y, z, character⟩ = none → s1 = s) ∧
      (∀ j : Int, acceptedIndex sin cos s ⟨x, y, z, character⟩ = some j →
        0 ≤ j ∧ j < s.width * s.height ∧ j.toNat < s.zBuffer.length ∧
        j.toNat < s.buffer.length ∧
        ∀ i : Nat, i ≠ j.toNat →
          s1.zBuffer[i]? = s.zBuffer[i]? ∧ s1.buffer[i]? = s.buffer[i]?) := by
  obtain ⟨hnone, hsome⟩ := drawPoint_eq sin cos s hs x y z character
  cases hacc : acceptedIndex sin cos s ⟨x, y, z, character⟩ with
  | none =>
    refine ⟨s, hnone hacc, fun _ => rfl, ?_⟩
    intro j hj
    cases hj
  | some j =>
    obtain ⟨h0, hlt, d, hd, hjb, hwrite, hkeep⟩ := hsome j hacc
    have hjz : j.toNat < s.zBuffer.length := by
      rcases Nat.lt_or_ge j.toNat s.zBuffer.length with h | h
      · exact h
      · rw [List.getElem?_eq_none h] at hd; cases hd
    by_cases hlt2 : d < inverseDepth sin cos s ⟨x, y, z, character⟩
    · refine ⟨_, hwrite hlt2, fun h => (by cases h), ?_⟩
      intro k hk
      cases hk
      refine ⟨h0, hlt, hjz, hjb, ?_⟩
      intro i hi
      exact ⟨List.getElem?_set_ne (Ne.symm hi), List.getElem?_set_ne (Ne.symm hi)⟩
    · refine ⟨s, hkeep hlt2, fun _ => rfl, ?_⟩
      intro k hk
      cases hk
      exact ⟨h0, hlt, hjz, hjb, fun _ _ => ⟨rfl, rfl⟩⟩

theorem drawPoint_accesses_in_range_witness :
    ∃ s1, drawPoint Real.sin Real.cos (defaultCubeRenderer : CubeRenderer ℝ) 0 0 (-20) '@'
        = .ok s1 ∧
      (acceptedIndex Real.sin Real.cos (defaultCubeRenderer : CubeRenderer ℝ) ⟨0, 0, -20, '@'⟩
          = none → s1 = defaultCubeRenderer) ∧
      (∀ j : Int, acceptedIndex Real.sin Real.cos (defaultCubeRenderer : CubeRenderer ℝ)
          ⟨0, 0, -20, '@'⟩ = some j →
        0 ≤ j ∧ j < (defaultCubeRenderer : CubeRenderer ℝ).width
            * (defaultCubeRenderer : CubeRenderer ℝ).height ∧
        j.toNat < (defaultCubeRenderer : CubeRenderer ℝ).zBuffer.length ∧
        j.toNat < (defaultCubeRenderer : CubeRenderer ℝ).buffer.length ∧
        ∀ i : Nat, i ≠ j.toNat →
          s1.zBuffer[i]? = (defaultCubeRenderer : CubeRenderer ℝ).zBuffer[i]? ∧
          s1.buffer[i]? = (defaultCubeRenderer : CubeRenderer ℝ).buffer[i]?) :=
  drawPoint_accesses_in_range Real.sin Real.cos defaultCubeRenderer
    (newCubeRenderer_wellFormed 80 24)
    0 0 (-20) '@'

theorem project_default_right_of_screen :
    project Real.sin Real.cos (defaultCubeRenderer : CubeRenderer ℝ) 60 0 (-20)
      = some (85, 12, 1 / 80) := by
  unfold defaultCubeRenderer
  rw [project_new 80 24 60 0 (-20) (by norm_num)]
  have h1 : (((80 : Int).tdiv 2 : Int) : ℝ) = 40 := by
    rw [show (80 : Int).tdiv 2 = 40 from by decide]; norm_num
  have h2 : (((24 : Int).tdiv 2 : Int) : ℝ) = 12 := by
    rw [show (24 : Int).tdiv 2 = 12 from by decide]; norm_num
  rw [h1, h2, staticCastInt_eq 85 (by norm_num) (by norm_num) (by norm_num),
    staticCastInt_eq 12 (by norm_num) (by norm_num) (by norm_num)]
  norm_num

/-- C15, as stated, fails for a sample outside the screen: on the state built by
`main` the sample `(60, 0, -20)` has `screenx = 85`, `screeny = 12`, so
`screeny * width + screenx = 1045` is a cell of the buffers, and its inverse
depth `1/80` is above the stored depth 0; yet `drawPoint` returns at the bounds
check and changes nothing. -/
theorem drawPoint_out_of_bounds_unchanged :
    project Real.sin Real.cos (defaultCubeRenderer : CubeRenderer ℝ) 60 0 (-20)
      = some (85, 12, 1 / 80) ∧
    (12 : Int) * (defaultCubeRenderer : CubeRenderer ℝ).width + 85 = 1045 ∧
    (defaultCubeRenderer : CubeRenderer ℝ).zBuffer[1045]? = some 0 ∧
    (0 : ℝ) < 1 / 80 ∧
    drawPoint Real.sin Real.cos (defaultCubeRenderer : CubeRenderer ℝ) 60 0 (-20) '@'
      = .ok defaultCubeRenderer := by
  refine ⟨project_default_right_of_screen, by decide, ?_, by norm_num, ?_⟩
  · exact List.getElem?_replicate_of_lt (by decide)
  · unfold drawPoint
    rw [project_default_right_of_screen]
    exact plot_of_outside defaultCubeRenderer 85 12 (1 / 80) '@' (by decide)

/-- C15, amended: on every state whose buffers have length `width * height`, a
sample that is not accepted (behind the camera or outside the screen) changes
nothing; a sample accepted at `index = screeny * width + screenx` changes cell
`index` of both buffers, to its inverse depth and its glyph, exactly when its
inverse depth is above `depth[index]`, and otherwise changes nothing; in each
case every other cell, the angles and the configuration are unchanged. -/
theorem drawPoint_frame_effect (sin cos : α → α) (s : CubeRenderer α) (hs : WellFormed s)
    (x y z : α) (character : Char) :
    (acceptedIndex sin cos s ⟨x, y, z, character⟩ = none →
      drawPoint sin cos s x y z character = .ok s) ∧
    (∀ j : Int, acceptedIndex sin cos s ⟨x, y, z, character⟩ = some j →
      ∃ d, s.zBuffer[j.toNat]? = some d ∧
        (d < inverseDepth sin cos s ⟨x, y, z, character⟩ →
          drawPoint sin cos s x y z character = .ok { s with
            zBuffer := s.zBuffer.set j.toNat (inverseDepth sin cos s ⟨x, y, z, character⟩)
            buffer := s.buffer.set j.toNat character }) ∧
        (¬ d < inverseDepth sin cos s ⟨x, y, z, character⟩ →
          drawPoint sin cos s x y z character = .ok s)) := by
  obtain ⟨hnone, hsome⟩ := drawPoint_eq sin cos s hs x y z character
  refine ⟨hnone, ?_⟩
  intro j hj
  obtain ⟨-, -, d, hd, -, hwrite, hkeep⟩ := hsome j hj
  exact ⟨d, hd, hwrite, hkeep⟩

theorem drawPoint_frame_effect_witness :
    (acceptedIndex Real.sin Real.cos (defaultCubeRenderer : CubeRenderer ℝ) ⟨0, 0, -20, '@'⟩
        = none →
      drawPoint Real.sin Real.cos (defaultCubeRenderer : CubeRenderer ℝ) 0 0 (-20) '@'
        = .ok defaultCubeRenderer) ∧
    (∀ j : Int, acceptedIndex Real.sin Real.cos (defaultCubeRenderer : CubeRenderer ℝ)
        ⟨0, 0, -20, '@'⟩ = some j →
      ∃ d, (defaultCubeRenderer : CubeRenderer ℝ).zBuffer[j.toNat]? = some d ∧
        (d < inverseDepth Real.sin Real.cos (defaultCubeRenderer : CubeRenderer ℝ)
            ⟨0, 0, -20, '@'⟩ →
          drawPoint Real.sin Real.cos (defaultCubeRenderer : CubeRenderer ℝ) 0 0 (-20) '@'
            = .ok { (defaultCubeRenderer : CubeRenderer ℝ) with
              zBuffer := (defaultCubeRenderer : CubeRenderer ℝ).zBuffer.set j.toNat
                (inverseDepth Real.sin Real.cos (defaultCubeRenderer : CubeRenderer ℝ)
                  ⟨0, 0, -20, '@'⟩)
              buffer := (defaultCubeRenderer : CubeRenderer ℝ).buffer.set j.toNat '@' }) ∧
        (¬ d < inverseDepth Real.sin Real.cos (defaultCubeRenderer : CubeRenderer ℝ)
            ⟨0, 0, -20, '@'⟩ →
          drawPoint Real.sin Real.cos (defaultCubeRenderer : CubeRenderer ℝ) 0 0 (-20) '@'
            = .ok defaultCubeRenderer)) :=
  drawPoint_frame_effect Real.sin Real.cos defaultCubeRenderer
    (newCubeRenderer_wellFormed 80 24)
    0 0 (-20) '@'

/-! ## Independence of history -/

theorem resetBuffers_congr {s t : CubeRenderer α} (h : SameScene s t) :
    resetBuffers t = resetBuffers s := by
  have hz : (resetBuffers t).zBuffer = (resetBuffers s).zBuffer := by
    simp only [resetBuffers, List.map_const', h.2.2.2.2.2.2.2.2.1]
  have hb : (resetBuffers t).buffer = (resetBuffers s).buffer := by
    simp only [resetBuffers, List.map_const', h.2.2.2.2.2.2.2.2.2]
  refine CubeRenderer.ext_fields ?_ hz hb
  have h1 := (resetBuffers_sameScene s)
  have h2 := (resetBuffers_sameScene t)
  obtain ⟨a1, a2, a3, a4, a5, a6, a7, a8, a9, a10⟩ := h
  refine ⟨a1, a2, a3, a4, a5, a6, a7, a8, ?_, ?_⟩
  · rw [hz]
  · rw [hb]

/-- C19: from a reset buffer (all depths 0, all glyphs blank, length
`width * height`) every sequence of `drawPoint` calls whose glyphs are not the
blank character returns a state in which every cell has a depth `>= 0` and
holds the blank glyph if and only if its depth is 0. -/
theorem blank_iff_untouched (sin cos : α → α) (s : CubeRenderer α)
    (hz : s.zBuffer = List.replicate (s.width * s.height).toNat 0)
    (hb : s.buffer = List.replicate (s.width * s.height).toNat ' ')
    (ps : List (Sample α)) (hglyph : ∀ p ∈ ps, p.character ≠ ' ') :
    ∃ s1, drawPoints sin cos s ps = .ok s1 ∧
      s1.zBuffer.length = (s.width * s.height).toNat ∧
      s1.buffer.length = (s.width * s.height).toNat ∧
      ∀ i : Nat, i < (s.width * s.height).toNat →
        ∃ d g, s1.zBuffer[i]? = some d ∧ s1.buffer[i]? = some g ∧ 0 ≤ d ∧
          (g = ' ' ↔ d = 0) := by
  have hs : WellFormed s := by
    constructor
    · rw [hz, List.length_replicate]
    · rw [hb, List.length_replicate]
  obtain ⟨s1, h1, hsame, hcell⟩ := drawPoints_effect sin cos ps s hs
  have hs1 := hsame.wellFormed hs
  refine ⟨s1, h1, ?_, ?_, ?_⟩
  · rw [hs1.1, hsame.1, hsame.2.1]
  · rw [hs1.2, hsame.1, hsame.2.1]
  · intro i hi
    have hd : s.zBuffer[i]? = some 0 := by
      rw [hz]; exact List.getElem?_replicate_of_lt hi
    have hg : s.buffer[i]? = some ' ' := by
      rw [hb]; exact List.getElem?_replicate_of_lt hi
    rcases hcell i 0 ' ' hd hg with ⟨-, hz1, hb1⟩ | ⟨q, hq, -, hpos, -, hz1, hb1⟩
    · exact ⟨0, ' ', hz1, hb1, le_refl 0, by simp⟩
    · refine ⟨_, _, hz1, hb1, le_of_lt hpos, ?_⟩
      constructor
      · intro hblank
        exact absurd hblank (hglyph q hq)
      · intro h0
        exact absurd h0 (ne_of_gt hpos)

theorem blank_iff_untouched_witness :
    ∃ s1, drawPoints Real.sin Real.cos (newCubeRenderer 3 2 : CubeRenderer ℝ)
        [⟨1, 0, -20, '@'⟩, ⟨1, 0, 20, '.'⟩] = .ok s1 ∧
      s1.zBuffer.length = ((newCubeRenderer 3 2 : CubeRenderer ℝ).width
        * (newCubeRenderer 3 2 : CubeRenderer ℝ).height).toNat ∧
      s1.buffer.length = ((newCubeRenderer 3 2 : CubeRenderer ℝ).width
        * (newCubeRenderer 3 2 : CubeRenderer ℝ).height).toNat ∧
      ∀ i : Nat, i < ((newCubeRenderer 3 2 : CubeRenderer ℝ).width
          * (newCubeRenderer 3 2 : CubeRenderer ℝ).height).toNat →
        ∃ d g, s1.zBuffer[i]? = some d ∧ s1.buffer[i]? = some g ∧ 0 ≤ d ∧
          (g = ' ' ↔ d = 0) :=
  blank_iff_untouched Real.sin Real.cos (newCubeRenderer 3 2) rfl rfl
    [⟨1, 0, -20, '@'⟩, ⟨1, 0, 20, '.'⟩]
    (by
      intro p hp
      simp only [List.mem_cons, List.mem_singleton, List.not_mem_nil, or_false] at hp
      rcases hp with rfl | rfl <;> decide)

/-! ## Order of the samples -/

/-- Cell `i` after a sequence of samples is fixed by the set of samples: two
sequences with the same members leave the same depth in it, and the same glyph
when accepted samples of equal inverse depth at `i` carry equal glyphs. -/
theorem drawPoints_cell_unique (sin cos : α → α) (s : CubeRenderer α) (hs : WellFormed s)
    (ps qs : List (Sample α)) (hmem : ∀ p, p ∈ ps ↔ p ∈ qs) {s1 s2 : CubeRenderer α}
    (h1 : drawPoints sin cos s ps = .ok s1) (h2 : drawPoints sin cos s qs = .ok s2) (i : Nat) :
    s1.zBuffer[i]? = s2.zBuffer[i]? ∧
    ((∀ p ∈ ps, ∀ q ∈ ps, acceptedIndex sin cos s p = some (i : Int) →
        acceptedIndex sin cos s q = some (i : Int) →
        inverseDepth sin cos s p = inverseDepth sin cos s q → p.character = q.character) →
      s1.buffer[i]? = s2.buffer[i]?) := by
  obtain ⟨t1, e1, hsame1, hcell1⟩ := drawPoints_effect sin cos ps s hs
  obtain ⟨t2, e2, hsame2, hcell2⟩ := drawPoints_effect sin cos qs s hs
  rw [h1] at e1
  rw [h2] at e2
  cases e1
  cases e2
  rcases Nat.lt_or_ge i s.zBuffer.length with hi | hi
  · have hib : i < s.buffer.length := by rw [hs.2, ← hs.1]; exact hi
    have hd := List.getElem?_eq_getElem hi
    have hg := List.getElem?_eq_getElem hib
    rcases hcell1 i _ _ hd hg with ⟨hall1, hz1, hb1⟩ | ⟨q1, hq1, hqa1, hlt1, hmax1, hz1, hb1⟩
    · rcases hcell2 i _ _ hd hg with ⟨-, hz2, hb2⟩ | ⟨q2, hq2, hqa2, hlt2, -, -, -⟩
      · exact ⟨by rw [hz1, hz2], fun _ => by rw [hb1, hb2]⟩
      · exact absurd (hall1 q2 ((hmem q2).mpr hq2) hqa2) (not_le.mpr hlt2)
    · rcases hcell2 i _ _ hd hg with ⟨hall2, -, -⟩ | ⟨q2, hq2, hqa2, -, hmax2, hz2, hb2⟩
      · exact absurd (hall2 q1 ((hmem q1).mp hq1) hqa1) (not_le.mpr hlt1)
      · have heq : inverseDepth sin cos s q1 = inverseDepth sin cos s q2 :=
          le_antisymm (hmax2 q1 ((hmem q1).mp hq1) hqa1) (hmax1 q2 ((hmem q2).mpr hq2) hqa2)
        refine ⟨by rw [hz1, hz2, heq], ?_⟩
        intro hties
        rw [hb1, hb2, hties q1 hq1 q2 ((hmem q2).mpr hq2) hqa1 hqa2 heq]
  · have hib : s.buffer.length ≤ i := by rw [hs.2, ← hs.1]; exact hi
    have l1 : s1.zBuffer.length ≤ i := by rw [hsame1.2.2.2.2.2.2.2.2.1]; exact hi
    have l2 : s2.zBuffer.length ≤ i := by rw [hsame2.2.2.2.2.2.2.2.2.1]; exact hi
    have l3 : s1.buffer.length ≤ i := by rw [hsame1.2.2.2.2.2.2.2.2.2]; exact hib
    have l4 : s2.buffer.length ≤ i := by rw [hsame2.2.2.2.2.2.2.2.2.2]; exact hib
    exact ⟨by rw [List.getElem?_eq_none l1, List.getElem?_eq_none l2],
      fun _ => by rw [List.getElem?_eq_none l3, List.getElem?_eq_none l4]⟩

theorem project_with_buffers (sin cos : α → α) (s : CubeRenderer α) (zb : List α)
    (b : List Char) (x y z : α) :
    project sin cos { s with zBuffer := zb, buffer := b } x y z = project sin cos s x y z :=
  rfl

theorem drawPoint_default_front (character : Char) :
    drawPoint Real.sin Real.cos (defaultCubeRenderer : CubeRenderer ℝ) 0 0 (-20) character
      = .ok { (defaultCubeRenderer : CubeRenderer ℝ) with
              zBuffer := (List.replicate 1920 (0 : ℝ)).set 1000 (1 / 80)
              buffer := (List.replicate 1920 ' ').set 1000 character } := by
  unfold drawPoint
  rw [project_default_front]
  exact plot_of_lt defaultCubeRenderer 40 12 (1 / 80) character 1000 0 (by decide) (by decide)
    (by decide) (by decide) (by decide) (List.getElem?_replicate_of_lt (by decide))
    (by norm_num) (by rw [show (defaultCubeRenderer : CubeRenderer ℝ).buffer
      = List.replicate 1920 ' ' from rfl, List.length_replicate]; decide)

theorem drawPoint_default_front_again (c1 c2 : Char) :
    drawPoint Real.sin Real.cos ({ (defaultCubeRenderer : CubeRenderer ℝ) with
        zBuffer := (List.replicate 1920 (0 : ℝ)).set 1000 (1 / 80)
        buffer := (List.replicate 1920 ' ').set 1000 c1 }) 0 0 (-20) c2
      = .ok { (defaultCubeRenderer : CubeRenderer ℝ) with
              zBuffer := (List.replicate 1920 (0 : ℝ)).set 1000 (1 / 80)
              buffer := (List.replicate 1920 ' ').set 1000 c1 } := by
  unfold drawPoint
  rw [project_with_buffers, project_default_front]
  refine plot_of_not_lt _ 40 12 (1 / 80) c2 1000 (1 / 80)
    (show (12 : Int) * 80 + 40 = 1000 from by decide) ?_ (lt_irrefl _)
  exact List.getElem?_set_self (by rw [List.length_replicate]; decide)

/-- C11, as stated, fails on a tie: on the state built by `main` the samples
`(0, 0, -20, '@')` and `(0, 0, -20, '#')` hit cell 1000 with the same inverse
depth `1/80`; drawn in this order the cell holds `'@'`, drawn in the other order
it holds `'#'`, because an equal depth does not overwrite. -/
theorem draw_order_matters_on_tie :
    drawPoints Real.sin Real.cos (defaultCubeRenderer : CubeRenderer ℝ)
        [⟨0, 0, -20, '@'⟩, ⟨0, 0, -20, '#'⟩]
      = .ok { (defaultCubeRenderer : CubeRenderer ℝ) with
              zBuffer := (List.replicate 1920 (0 : ℝ)).set 1000 (1 / 80)
              buffer := (List.replicate 1920 ' ').set 1000 '@' } ∧
    drawPoints Real.sin Real.cos (defaultCubeRenderer : CubeRenderer ℝ)
        [⟨0, 0, -20, '#'⟩, ⟨0, 0, -20, '@'⟩]
      = .ok { (defaultCubeRenderer : CubeRenderer ℝ) with
              zBuffer := (List.replicate 1920 (0 : ℝ)).set 1000 (1 / 80)
              buffer := (List.replicate 1920 ' ').set 1000 '#' } ∧
    ((List.replicate 1920 ' ').set 1000 '@')[1000]? = some '@' ∧
    ((List.replicate 1920 ' ').set 1000 '#')[1000]? = some '#' ∧
    (List.replicate 1920 ' ').set 1000 '@' ≠ (List.replicate 1920 ' ').set 1000 '#' := by
  have ha : ((List.replicate 1920 ' ').set 1000 '@')[1000]? = some '@' :=
    List.getElem?_set_self (by rw [List.length_replicate]; decide)
  have hb : ((List.replicate 1920 ' ').set 1000 '#')[1000]? = some '#' :=
    List.getElem?_set_self (by rw [List.length_replicate]; decide)
  refine ⟨?_, ?_, ha, hb, ?_⟩
  · simp only [drawPoints, drawPoint_default_front, drawPoint_default_front_again]
  · simp only [drawPoints, drawPoint_default_front, drawPoint_default_front_again]
  · intro h
    rw [h, hb] at ha
    exact absurd (Option.some.inj ha) (by decide)

/-- C11, amended: on every state whose buffers have length `width * height`, two
sample sequences that are permutations of each other (in particular `p, q` and
`q, p`) both draw, and leave the same depth buffer; they leave the same state,
glyph buffer included, when no two samples of the sequence accepted at the same
index with the same inverse depth carry different glyphs. -/
theorem draw_order_irrelevant_without_ties (sin cos : α → α) (s : CubeRenderer α)
    (hs : WellFormed s) (ps qs : List (Sample α)) (hperm : ps.Perm qs) :
    ∃ s1 s2, drawPoints sin cos s ps = .ok s1 ∧ drawPoints sin cos s qs = .ok s2 ∧
      s1.zBuffer = s2.zBuffer ∧
      ((∀ p ∈ ps, ∀ q ∈ ps, ∀ j : Int, acceptedIndex sin cos s p = some j →
          acceptedIndex sin cos s q = some j →
          inverseDepth sin cos s p = inverseDepth sin cos s q → p.character = q.character) →
        s1 = s2) := by
  obtain ⟨s1, h1, hsame1⟩ := drawPoints_ok sin cos s hs ps
  obtain ⟨s2, h2, hsame2⟩ := drawPoints_ok sin cos s hs qs
  have hmem : ∀ p, p ∈ ps ↔ p ∈ qs := fun p => hperm.mem_iff
  have hz : s1.zBuffer = s2.zBuffer :=
    List.ext_getElem? (fun i => (drawPoints_cell_unique sin cos s hs ps qs hmem h1 h2 i).1)
  refine ⟨s1, s2, h1, h2, hz, ?_⟩
  intro hties
  have hb : s1.buffer = s2.buffer :=
    List.ext_getElem? (fun i => (drawPoints_cell_unique sin cos s hs ps qs hmem h1 h2 i).2
      (fun p hp q hq => hties p hp q hq (i : Int)))
  have hscene : SameScene s2 s1 := by
    obtain ⟨a1, a2, a3, a4, a5, a6, a7, a8, a9, a10⟩ := hsame1
    obtain ⟨b1, b2, b3, b4, b5, b6, b7, b8, b9, b10⟩ := hsame2
    exact ⟨a1.trans b1.symm, a2.trans b2.symm, a3.trans b3.symm, a4.trans b4.symm,
      a5.trans b5.symm, a6.trans b6.symm, a7.trans b7.symm, a8.trans b8.symm,
      a9.trans b9.symm, a10.trans b10.symm⟩
  exact CubeRenderer.ext_fields hscene hz hb

theorem draw_order_irrelevant_without_ties_witness :
    ∃ s1 s2, drawPoints Real.sin Real.cos (newCubeRenderer 3 2 : CubeRenderer ℝ)
        [⟨1, 0, -20, '@'⟩, ⟨1, 0, 20, '.'⟩] = .ok s1 ∧
      drawPoints Real.sin Real.cos (newCubeRenderer 3 2 : CubeRenderer ℝ)
        [⟨1, 0, 20, '.'⟩, ⟨1, 0, -20, '@'⟩] = .ok s2 ∧
      s1.zBuffer = s2.zBuffer ∧
      ((∀ p ∈ [(⟨1, 0, -20, '@'⟩ : Sample ℝ), ⟨1, 0, 20, '.'⟩],
          ∀ q ∈ [(⟨1, 0, -20, '@'⟩ : Sample ℝ), ⟨1, 0, 20, '.'⟩], ∀ j : Int,
          acceptedIndex Real.sin Real.cos (newCubeRenderer 3 2) p = some j →
          acceptedIndex Real.sin Real.cos (newCubeRenderer 3 2) q = some j →
          inverseDepth Real.sin Real.cos (newCubeRenderer 3 2) p
            = inverseDepth Real.sin Real.cos (newCubeRenderer 3 2) q →
          p.character = q.character) →
        s1 = s2) :=
  draw_order_irrelevant_without_ties Real.sin Real.cos (newCubeRenderer 3 2)
    (newCubeRenderer_wellFormed 3 2) [⟨1, 0, -20, '@'⟩, ⟨1, 0, 20, '.'⟩]
    [⟨1, 0, 20, '.'⟩, ⟨1, 0, -20, '@'⟩] (List.Perm.swap _ _ _)

/-! ## Truncation at the border -/

theorem staticCastInt_neg_fraction {v : α} (h1 : -1 < v) (h2 : v < 0) : staticCastInt v = 0 := by
  unfold staticCastInt
  rw [if_neg (not_le.mpr h2)]
  refine Int.ceil_eq_iff.mpr ⟨?_, ?_⟩
  · simpa using h1
  · simpa using h2.le

theorem screenPosition_new (w h : Int) (x y z : ℝ) :
    screenPositionX Real.sin Real.cos (newCubeRenderer w h : CubeRenderer ℝ) x y z
      = ((w.tdiv 2 : Int) : ℝ) + 30 * (1 / (z + 100)) * x * 2 ∧
    screenPositionY Real.sin Real.cos (newCubeRenderer w h : CubeRenderer ℝ) x y z
      = ((h.tdiv 2 : Int) : ℝ) + 30 * (1 / (z + 100)) * y := by
  obtain ⟨hx, hy, hz⟩ := calculate_new w h x y z
  have hd : (((newCubeRenderer w h : CubeRenderer ℝ).distanceFromCam : Int) : ℝ) = 100 := by
    simp only [newCubeRenderer]; norm_num
  simp only [screenPositionX, screenPositionY, shiftedZ, hx, hy, hz, hd]
  exact ⟨rfl, rfl⟩

theorem tdiv_default :
    (((80 : Int).tdiv 2 : Int) : ℝ) = 40 ∧ (((24 : Int).tdiv 2 : Int) : ℝ) = 12 := by
  constructor
  · rw [show (80 : Int).tdiv 2 = 40 from by decide]; norm_num
  · rw [show (24 : Int).tdiv 2 = 12 from by decide]; norm_num

/-- C20: on the state built by `main` (80 x 24, zoom 30, camera distance 100,
angles 0) the sample `(-40.5, 0, -40)` has shifted depth 60 and horizontal
position `40 - 40.5 = -0.5`, left of the screen; truncation toward zero makes
`screenx = 0`, the bounds check passes and `drawPoint` writes the glyph in
column 0 of row 12 (cell 960). Likewise the sample `(0, -25, -40)` has vertical
position `12 - 12.5 = -0.5` and is written in row 0, column 40 (cell 40). -/
theorem off_screen_sample_drawn_on_border (character : Char) :
    (0 < shiftedZ Real.sin Real.cos (defaultCubeRenderer : CubeRenderer ℝ) (-81 / 2) 0 (-40) ∧
      -1 < screenPositionX Real.sin Real.cos (defaultCubeRenderer : CubeRenderer ℝ)
        (-81 / 2) 0 (-40) ∧
      screenPositionX Real.sin Real.cos (defaultCubeRenderer : CubeRenderer ℝ)
        (-81 / 2) 0 (-40) < 0 ∧
      project Real.sin Real.cos (defaultCubeRenderer : CubeRenderer ℝ) (-81 / 2) 0 (-40)
        = some (0, 12, 1 / 60) ∧
      drawPoint Real.sin Real.cos (defaultCubeRenderer : CubeRenderer ℝ) (-81 / 2) 0 (-40)
          character
        = .ok { (defaultCubeRenderer : CubeRenderer ℝ) with
                zBuffer := (List.replicate 1920 (0 : ℝ)).set 960 (1 / 60)
                buffer := (List.replicate 1920 ' ').set 960 character }) ∧
    (0 < shiftedZ Real.sin Real.cos (defaultCubeRenderer : CubeRenderer ℝ) 0 (-25) (-40) ∧
      -1 < screenPositionY Real.sin Real.cos (defaultCubeRenderer : CubeRenderer ℝ)
        0 (-25) (-40) ∧
      screenPositionY Real.sin Real.cos (defaultCubeRenderer : CubeRenderer ℝ)
        0 (-25) (-40) < 0 ∧
      project Real.sin Real.cos (defaultCubeRenderer : CubeRenderer ℝ) 0 (-25) (-40)
        = some (40, 0, 1 / 60) ∧
      drawPoint Real.sin Real.cos (defaultCubeRenderer : CubeRenderer ℝ) 0 (-25) (-40)
          character
        = .ok { (defaultCubeRenderer : CubeRenderer ℝ) with
                zBuffer := (List.replicate 1920 (0 : ℝ)).set 40 (1 / 60)
                buffer := (List.replicate 1920 ' ').set 40 character }) := by
  obtain ⟨h40, h12⟩ := tdiv_default
  have hbuf : (defaultCubeRenderer : CubeRenderer ℝ).buffer.length = 1920 := by
    rw [show (defaultCubeRenderer : CubeRenderer ℝ).buffer = List.replicate 1920 ' ' from rfl,
      List.length_replicate]
  have hdist : (((defaultCubeRenderer : CubeRenderer ℝ).distanceFromCam : Int) : ℝ) = 100 := by
    simp only [defaultCubeRenderer, newCubeRenderer]; norm_num
  constructor
  · obtain ⟨-, -, hz⟩ := calculate_new 80 24 (-81 / 2) 0 (-40)
    obtain ⟨hX, -⟩ := screenPosition_new 80 24 (-81 / 2) 0 (-40)
    have hp : project Real.sin Real.cos (defaultCubeRenderer : CubeRenderer ℝ) (-81 / 2) 0 (-40)
        = some (0, 12, 1 / 60) := by
      unfold defaultCubeRenderer
      rw [project_new 80 24 (-81 / 2) 0 (-40) (by norm_num), h40, h12,
        staticCastInt_neg_fraction (by norm_num) (by norm_num),
        staticCastInt_eq 12 (by norm_num) (by norm_num) (by norm_num)]
      norm_num
    unfold defaultCubeRenderer at hdist
    refine ⟨?_, ?_, ?_, hp, ?_⟩
    · unfold shiftedZ defaultCubeRenderer; rw [hz, hdist]; norm_num
    · unfold defaultCubeRenderer; rw [hX, h40]; norm_num
    · unfold defaultCubeRenderer; rw [hX, h40]; norm_num
    · unfold drawPoint
      rw [hp]
      exact plot_of_lt defaultCubeRenderer 0 12 (1 / 60) character 960 0 (by decide)
        (by decide) (by decide) (by decide) (by decide)
        (List.getElem?_replicate_of_lt (by decide)) (by norm_num) (by rw [hbuf]; decide)
  · obtain ⟨-, -, hz⟩ := calculate_new 80 24 0 (-25) (-40)
    obtain ⟨-, hY⟩ := screenPosition_new 80 24 0 (-25) (-40)
    have hp : project Real.sin Real.cos (defaultCubeRenderer : CubeRenderer ℝ) 0 (-25) (-40)
        = some (40, 0, 1 / 60) := by
      unfold defaultCubeRenderer
      rw [project_new 80 24 0 (-25) (-40) (by norm_num), h40, h12,
        staticCastInt_eq 40 (by norm_num) (by norm_num) (by norm_num),
        staticCastInt_neg_fraction (by norm_num) (by norm_num)]
      norm_num
    unfold defaultCubeRenderer at hdist
    refine ⟨?_, ?_, ?_, hp, ?_⟩
    · unfold shiftedZ defaultCubeRenderer; rw [hz, hdist]; norm_num
    · unfold defaultCubeRenderer; rw [hY, h12]; norm_num
    · unfold defaultCubeRenderer; rw [hY, h12]; norm_num
    · unfold drawPoint
      rw [hp]
      exact plot_of_lt defaultCubeRenderer 40 0 (1 / 60) character 40 0 (by decide)
        (by decide) (by decide) (by decide) (by decide)
        (List.getElem?_replicate_of_lt (by decide)) (by norm_num) (by rw [hbuf]; decide)

/-! ## The cube in the default view -/

theorem calculate_normSq (s : CubeRenderer ℝ) (i j k : ℝ) :
    calculateX Real.sin Real.cos s i j k ^ 2 + calculateY Real.sin Real.cos s i j k ^ 2
      + calculateZ Real.sin Real.cos s i j k ^ 2 = i ^ 2 + j ^ 2 + k ^ 2 := by
  have h := calculate_eq_rotations Real.sin Real.cos s i j k
  have hx := congrArg (fun q : ℝ × ℝ × ℝ => q.1) h
  have hy := congrArg (fun q : ℝ × ℝ × ℝ => q.2.1) h
  have hz := congrArg (fun q : ℝ × ℝ × ℝ => q.2.2) h
  simp only at hx hy hz
  rw [hx, hy, hz, rotateAboutZ_normSq, rotateAboutY_normSq, rotateAboutX_normSq]

/-- Rotated coordinates of a point of the cube `[-20, 20]³` have squared length
at most `3 * 20² = 1200`. -/
theorem calculate_normSq_le (s : CubeRenderer ℝ) (x y z : ℝ) (hx : |x| ≤ 20) (hy : |y| ≤ 20)
    (hz : |z| ≤ 20) :
    calculateX Real.sin Real.cos s x y z ^ 2 + calculateY Real.sin Real.cos s x y z ^ 2
      + calculateZ Real.sin Real.cos s x y z ^ 2 ≤ 1200 := by
  rw [calculate_normSq]
  have h1 : x ^ 2 ≤ 20 ^ 2 := sq_le_sq' (abs_le.mp hx).1 (abs_le.mp hx).2
  have h2 : y ^ 2 ≤ 20 ^ 2 := sq_le_sq' (abs_le.mp hy).1 (abs_le.mp hy).2
  have h3 : z ^ 2 ≤ 20 ^ 2 := sq_le_sq' (abs_le.mp hz).1 (abs_le.mp hz).2
  linarith

/-- C17: with camera distance 100, for all angles `A`, `B`, `C` and every point
whose three coordinates lie in `[-20, 20]`, the shifted depth
`calculateZ(x,y,z) + 100` is at least `100 - 20 * sqrt 3`, hence strictly
positive: `drawPoint` does not take the behind-camera return and `1 / zp`
divides by a positive number. -/
theorem cube_in_front_of_camera (s : CubeRenderer ℝ) (hd : s.distanceFromCam = 100)
    (x y z : ℝ) (hx : |x| ≤ 20) (hy : |y| ≤ 20) (hz : |z| ≤ 20) :
    100 - 20 * Real.sqrt 3 ≤ calculateZ Real.sin Real.cos s x y z + (s.distanceFromCam : ℝ) ∧
    0 < 100 - 20 * Real.sqrt 3 ∧
    0 < calculateZ Real.sin Real.cos s x y z + (s.distanceFromCam : ℝ) ∧
    project Real.sin Real.cos s x y z ≠ none := by
  have hN := calculate_normSq_le s x y z hx hy hz
  have h3 : Real.sqrt 3 ^ 2 = 3 := Real.sq_sqrt (by norm_num)
  have h30 : 0 ≤ Real.sqrt 3 := Real.sqrt_nonneg 3
  have hZ : -(20 * Real.sqrt 3) ≤ calculateZ Real.sin Real.cos s x y z := by
    by_contra hc
    push_neg at hc
    nlinarith [sq_nonneg (calculateX Real.sin Real.cos s x y z),
      sq_nonneg (calculateY Real.sin Real.cos s x y z)]
  have hs3 : 20 * Real.sqrt 3 < 100 := by nlinarith
  have hdr : ((s.distanceFromCam : Int) : ℝ) = 100 := by rw [hd]; norm_num
  have hpos : 0 < calculateZ Real.sin Real.cos s x y z + (s.distanceFromCam : ℝ) := by
    rw [hdr]; linarith
  refine ⟨by rw [hdr]; linarith, by linarith, hpos, ?_⟩
  rw [project_of_pos Real.sin Real.cos s x y z hpos]
  exact Option.some_ne_none _

theorem cube_in_front_of_camera_witness :
    100 - 20 * Real.sqrt 3 ≤ calculateZ Real.sin Real.cos (defaultCubeRenderer : CubeRenderer ℝ)
        20 (-20) (-20) + (((defaultCubeRenderer : CubeRenderer ℝ).distanceFromCam : Int) : ℝ) ∧
    0 < 100 - 20 * Real.sqrt 3 ∧
    0 < calculateZ Real.sin Real.cos (defaultCubeRenderer : CubeRenderer ℝ) 20 (-20) (-20)
        + (((defaultCubeRenderer : CubeRenderer ℝ).distanceFromCam : Int) : ℝ) ∧
    project Real.sin Real.cos (defaultCubeRenderer : CubeRenderer ℝ) 20 (-20) (-20) ≠ none :=
  cube_in_front_of_camera defaultCubeRenderer rfl 20 (-20) (-20)
    (by rw [abs_le]; constructor <;> norm_num) (by rw [abs_le]; constructor <;> norm_num)
    (by rw [abs_le]; constructor <;> norm_num)

theorem staticCastInt_bounds {v : α} (n : Int) (h0 : 0 ≤ v) (h1 : v < (n : α)) :
    0 ≤ staticCastInt v ∧ staticCastInt v < n := by
  unfold staticCastInt
  rw [if_pos h0]
  exact ⟨Int.floor_nonneg.mpr h0, Int.floor_lt.mpr h1⟩

/-- C18: with width 80, height 24, camera distance 100 and zoom 30, for all
angles `A`, `B`, `C` and every point whose three coordinates lie in `[-20, 20]`,
`drawPoint` computes screen coordinates with `0 <= screenx < 80` and
`0 <= screeny < 24`: the sample is accepted at `screeny * 80 + screenx`. -/
theorem cube_never_clipped (s : CubeRenderer ℝ) (hw : s.width = 80) (hh : s.height = 24)
    (hd : s.distanceFromCam = 100) (hzoom : s.zoomlevel = 30)
    (x y z : ℝ) (character : Char) (hx : |x| ≤ 20) (hy : |y| ≤ 20) (hz : |z| ≤ 20) :
    ∃ sx sy oz, project Real.sin Real.cos s x y z = some (sx, sy, oz) ∧
      0 ≤ sx ∧ sx < 80 ∧ 0 ≤ sy ∧ sy < 24 ∧
      acceptedIndex Real.sin Real.cos s ⟨x, y, z, character⟩ = some (sy * 80 + sx) := by
  have hN := calculate_normSq_le s x y z hx hy hz
  have hdr : ((s.distanceFromCam : Int) : ℝ) = 100 := by rw [hd]; norm_num
  obtain ⟨h40, h12⟩ := tdiv_default
  generalize hX : calculateX Real.sin Real.cos s x y z = X at hN
  generalize hY : calculateY Real.sin Real.cos s x y z = Y at hN
  generalize hZ : calculateZ Real.sin Real.cos s x y z = Z at hN
  have hZlow : -100 < Z := by nlinarith [sq_nonneg X, sq_nonneg Y]
  have hzp : 0 < Z + 100 := by linarith
  have hpos : 0 < calculateZ Real.sin Real.cos s x y z + (s.distanceFromCam : ℝ) := by
    rw [hZ, hdr]; exact hzp
  have ht : 0 < 1 / (Z + 100) := one_div_pos.mpr hzp
  have htz : 1 / (Z + 100) * (Z + 100) = 1 := by field_simp
  have hXu : 3 * X < 2 * (Z + 100) := by
    by_contra hc
    push_neg at hc
    nlinarith [mul_nonneg (sub_nonneg.mpr hc) (by linarith : (0 : ℝ) ≤ 3 * X + 2 * (Z + 100)),
      sq_nonneg (13 * Z + 400), sq_nonneg Y]
  have hXl : -(2 * (Z + 100)) < 3 * X := by
    by_contra hc
    push_neg at hc
    nlinarith [mul_nonneg (by linarith : (0 : ℝ) ≤ -(3 * X) - 2 * (Z + 100))
      (by linarith : (0 : ℝ) ≤ -(3 * X) + 2 * (Z + 100)),
      sq_nonneg (13 * Z + 400), sq_nonneg Y]
  have hYu : 5 * Y < 2 * (Z + 100) := by
    by_contra hc
    push_neg at hc
    nlinarith [mul_nonneg (sub_nonneg.mpr hc) (by linarith : (0 : ℝ) ≤ 5 * Y + 2 * (Z + 100)),
      sq_nonneg (29 * Z + 400), sq_nonneg X]
  have hYl : -(2 * (Z + 100)) < 5 * Y := by
    by_contra hc
    push_neg at hc
    nlinarith [mul_nonneg (by linarith : (0 : ℝ) ≤ -(5 * Y) - 2 * (Z + 100))
      (by linarith : (0 : ℝ) ≤ -(5 * Y) + 2 * (Z + 100)),
      sq_nonneg (29 * Z + 400), sq_nonneg X]
  have e1 := mul_lt_mul_of_pos_left hXu ht
  have e2 := mul_lt_mul_of_pos_left hXl ht
  have e3 := mul_lt_mul_of_pos_left hYu ht
  have e4 := mul_lt_mul_of_pos_left hYl ht
  have b1 : (0 : ℝ) ≤ 40 + 30 * (1 / (Z + 100)) * X * 2 := by linarith
  have b2 : 40 + 30 * (1 / (Z + 100)) * X * 2 < 80 := by linarith
  have b3 : (0 : ℝ) ≤ 12 + 30 * (1 / (Z + 100)) * Y := by linarith
  have b4 : 12 + 30 * (1 / (Z + 100)) * Y < 24 := by linarith
  have hsx := staticCastInt_bounds 80 b1 (by push_cast; exact b2)
  have hsy := staticCastInt_bounds 24 b3 (by push_cast; exact b4)
  have hp : project Real.sin Real.cos s x y z = some
      (staticCastInt (40 + 30 * (1 / (Z + 100)) * X * 2),
       staticCastInt (12 + 30 * (1 / (Z + 100)) * Y), 1 / (Z + 100)) := by
    rw [project_of_pos Real.sin Real.cos s x y z hpos, hX, hY, hZ, hdr, hw, hh, hzoom, h40, h12]
  refine ⟨_, _, _, hp, hsx.1, hsx.2, hsy.1, hsy.2, ?_⟩
  unfold acceptedIndex
  simp only [hp, hw, hh]
  rw [if_pos ⟨hsx.1, hsx.2, hsy.1, hsy.2⟩]

theorem cube_never_clipped_witness :
    ∃ sx sy oz, project Real.sin Real.cos (defaultCubeRenderer : CubeRenderer ℝ) 20 (-20) (-20)
        = some (sx, sy, oz) ∧
      0 ≤ sx ∧ sx < 80 ∧ 0 ≤ sy ∧ sy < 24 ∧
      acceptedIndex Real.sin Real.cos (defaultCubeRenderer : CubeRenderer ℝ)
        ⟨20, -20, -20, '#'⟩ = some (sy * 80 + sx) :=
  cube_never_clipped defaultCubeRenderer rfl rfl rfl rfl 20 (-20) (-20) '#'
    (by rw [abs_le]; constructor <;> norm_num) (by rw [abs_le]; constructor <;> norm_num)
    (by rw [abs_le]; constructor <;> norm_num)

/-! ## Rasterizer enumeration -/

theorem drawPoints_append (sin cos : α → α) (l1 l2 : List (Sample α)) :
    ∀ s : CubeRenderer α, drawPoints sin cos s (l1 ++ l2)
      = match drawPoints sin cos s l1 with
        | .error e => .error e
        | .ok s1 => drawPoints sin cos s1 l2 := by
  induction l1 with
  | nil => intro s; rfl
  | cons p l1 ih =>
    intro s
    simp only [List.cons_append, drawPoints]
    cases drawPoint sin cos s p.x p.y p.z p.character with
    | error e => rfl
    | ok s1 => exact ih s1

theorem drawPoints_sameScene (sin cos : α → α) (ps : List (Sample α)) :
    ∀ (s s1 : CubeRenderer α), drawPoints sin cos s ps = .ok s1 → SameScene s s1 := by
  induction ps with
  | nil =>
    intro s s1 h
    simp only [drawPoints] at h
    cases h
    exact SameScene.refl s
  | cons p ps ih =>
    intro s s1 h
    simp only [drawPoints] at h
    cases hp : drawPoint sin cos s p.x p.y p.z p.character with
    | error e => rw [hp] at h; cases h
    | ok s2 =>
      rw [hp] at h
      exact (drawPoint_sameScene sin cos s p.x p.y p.z p.character hp).trans (ih s2 s1 h)

theorem countP_flatMap_range {β : Type} (f : Nat → List β) (P : β → Bool) (k : Nat)
    (h : ∀ a, (f a).countP P = k) :
    ∀ n : Nat, ((List.range n).flatMap f).countP P = n * k := by
  intro n
  induction n with
  | zero => simp
  | succ n ih =>
    rw [List.range_succ, List.flatMap_append, List.countP_append, ih, List.flatMap_singleton, h]
    ring

theorem length_flatMap_range {β : Type} (f : Nat → List β) (k : Nat)
    (h : ∀ a, (f a).length = k) :
    ∀ n : Nat, ((List.range n).flatMap f).length = n * k := by
  intro n
  induction n with
  | zero => simp
  | succ n ih =>
    rw [List.range_succ, List.flatMap_append, List.length_append, ih, List.flatMap_singleton, h]
    ring

/-! ## Binary32 rounding -/

theorem roundHalfEven_eq_of_le (n : Int) {m : α} (h1 : (n : α) - 1 / 2 ≤ m)
    (h2 : m ≤ (n : α) + 1 / 2)
    (htie : m = (n : α) + 1 / 2 ∨ m = (n : α) - 1 / 2 → n % 2 = 0) :
    roundHalfEven m = n := by
  unfold roundHalfEven
  rcases le_or_lt (n : α) m with h | h
  · have hf : ⌊m⌋ = n := Int.floor_eq_iff.mpr ⟨h, by linarith⟩
    rw [hf]
    rcases lt_or_eq_of_le h2 with h3 | h3
    · rw [if_pos (by linarith)]
    · have e1 : ¬ (m - (n : α) < 1 / 2) := by rw [h3]; simp
      have e2 : ¬ (1 / 2 < m - (n : α)) := by rw [h3]; simp
      rw [if_neg e1, if_neg e2, if_pos (htie (Or.inl h3))]
  · have hf : ⌊m⌋ = n - 1 :=
      Int.floor_eq_iff.mpr ⟨by push_cast; linarith, by push_cast; linarith⟩
    rw [hf]
    rcases lt_or_eq_of_le h1 with h3 | h3
    · have e1 : ¬ (m - ((n - 1 : Int) : α) < 1 / 2) := by push_cast; linarith
      have e2 : 1 / 2 < m - ((n - 1 : Int) : α) := by push_cast; linarith
      rw [if_neg e1, if_pos e2]
      ring
    · have e1 : ¬ (m - ((n - 1 : Int) : α) < 1 / 2) := by push_cast; linarith
      have e2 : ¬ (1 / 2 < m - ((n - 1 : Int) : α)) := by push_cast; linarith
      have hodd : ¬ ((n - 1) % 2 = 0) := by
        have := htie (Or.inr h3.symm)
        omega
      rw [if_neg e1, if_neg e2, if_neg hodd]
      ring

/-- Evaluation of a rounding: when `|x|` lies in the binade `[2^e, 2^(e+1))`, the
spacing there is `u` and `x` is within half a spacing of `n * u`, with `n` even
if `x` is exactly half-way, `x` rounds to `n * u`. -/
theorem roundBinary_eq_of_le (p : Nat) (emin e n : Int) (u a : α) {x : α} (ha : |x| = a)
    (hlo : (2 : α) ^ e ≤ a) (hhi : a < (2 : α) ^ (e + 1)) (he : emin ≤ e)
    (hu : (2 : α) ^ (e - ((p : Int) - 1)) = u)
    (h1 : ((n : α) - 1 / 2) * u ≤ x) (h2 : x ≤ ((n : α) + 1 / 2) * u)
    (htie : x = ((n : α) + 1 / 2) * u ∨ x = ((n : α) - 1 / 2) * u → n % 2 = 0) :
    roundBinary p emin x = (n : α) * u := by
  have h2e : (0 : α) < (2 : α) ^ e := zpow_pos (by norm_num) e
  have hpos : 0 < |x| := by rw [ha]; exact lt_of_lt_of_le h2e hlo
  have hx : x ≠ 0 := abs_pos.mp hpos
  have hup : 0 < u := by rw [← hu]; exact zpow_pos (by norm_num) _
  have hlog : Int.log 2 |x| = e := by
    have a1 : e ≤ Int.log 2 |x| :=
      (Int.zpow_le_iff_le_log (by norm_num) hpos).mp (by rw [ha]; exact_mod_cast hlo)
    have a2 : Int.log 2 |x| < e + 1 :=
      (Int.lt_zpow_iff_log_lt (by norm_num) hpos).mp (by rw [ha]; exact_mod_cast hhi)
    omega
  have hq1 : (n : α) - 1 / 2 ≤ x / u := by
    rw [le_div_iff₀ hup]; exact h1
  have hq2 : x / u ≤ (n : α) + 1 / 2 := by
    rw [div_le_iff₀ hup]; exact h2
  have hq3 : x / u = (n : α) + 1 / 2 ∨ x / u = (n : α) - 1 / 2 → n % 2 = 0 := by
    intro h
    apply htie
    rcases h with h | h
    · left; rw [← h]; field_simp
    · right; rw [← h]; field_simp
  unfold roundBinary
  rw [if_neg hx]
  simp only [hlog, max_eq_left he, hu]
  rw [roundHalfEven_eq_of_le n hq1 hq2 hq3]

theorem roundBinary_eq (p : Nat) (emin e n : Int) (u a : α) {x : α} (ha : |x| = a)
    (hlo : (2 : α) ^ e ≤ a) (hhi : a < (2 : α) ^ (e + 1)) (he : emin ≤ e)
    (hu : (2 : α) ^ (e - ((p : Int) - 1)) = u)
    (h1 : ((n : α) - 1 / 2) * u < x) (h2 : x < ((n : α) + 1 / 2) * u) :
    roundBinary p emin x = (n : α) * u := by
  refine roundBinary_eq_of_le p emin e n u a ha hlo hhi he hu h1.le h2.le ?_
  rintro (h | h)
  · exact absurd h (ne_of_lt h2)
  · exact absurd h (ne_of_gt h1)

theorem roundDouble_eight_tenths :
    roundDouble (0.8 : α) = 7205759403792794 / 9007199254740992 := by
  unfold roundDouble
  rw [roundBinary_eq 53 (-1022) (-1) 7205759403792794 (1 / 9007199254740992) (0.8)
    (by norm_num [abs_of_pos]) (by norm_num) (by norm_num) (by norm_num) (by norm_num)
    (by norm_num) (by norm_num)]
  norm_num

/-- The `float` step of `renderCube` is `13421773 / 2^24 = 0.800000011920929`,
not 0.8. -/
theorem incrementFloat_eq : (incrementFloat : α) = 13421773 / 16777216 := by
  unfold incrementFloat
  rw [roundDouble_eight_tenths]
  unfold roundFloat
  rw [roundBinary_eq 24 (-126) (-1) 13421773 (1 / 16777216)
    (7205759403792794 / 9007199254740992)
    (by norm_num [abs_of_pos]) (by norm_num) (by norm_num) (by norm_num) (by norm_num)
    (by norm_num) (by norm_num)]
  norm_num

theorem floatStep_eq (e n : Int) (u a : α) {x : α} (ha : |x + 13421773 / 16777216| = a)
    (hlo : (2 : α) ^ e ≤ a) (hhi : a < (2 : α) ^ (e + 1)) (he : -126 ≤ e)
    (hu : (2 : α) ^ (e - ((24 : Nat) : Int) + 1) = u)
    (h1 : ((n : α) - 1 / 2) * u < x + 13421773 / 16777216)
    (h2 : x + 13421773 / 16777216 < ((n : α) + 1 / 2) * u) :
    floatStep x = (n : α) * u := by
  unfold floatStep roundFloat
  rw [incrementFloat_eq]
  exact roundBinary_eq 24 (-126) e n u a ha hlo hhi he
    (by rw [← hu]; congr 1; ring) h1 h2

theorem floatStep_eq_tie (e n : Int) (u a : α) {x : α} (ha : |x + 13421773 / 16777216| = a)
    (hlo : (2 : α) ^ e ≤ a) (hhi : a < (2 : α) ^ (e + 1)) (he : -126 ≤ e)
    (hu : (2 : α) ^ (e - ((24 : Nat) : Int) + 1) = u)
    (hx : x + 13421773 / 16777216 = ((n : α) + 1 / 2) * u
      ∨ x + 13421773 / 16777216 = ((n : α) - 1 / 2) * u)
    (heven : n % 2 = 0) :
    floatStep x = (n : α) * u := by
  have hup : 0 < u := by rw [← hu]; exact zpow_pos (by norm_num) _
  unfold floatStep roundFloat
  rw [incrementFloat_eq]
  refine roundBinary_eq_of_le 24 (-126) e n u a ha hlo hhi he
    (by rw [← hu]; congr 1; ring) ?_ ?_ (fun _ => heven)
  · rcases hx with h | h
    · rw [h]; nlinarith
    · rw [h]
  · rcases hx with h | h
    · rw [h]
    · rw [h]; nlinarith

theorem floatStep_table (k : Nat) (hk : k < 51) :
    floatStep (((loopNumerators.getD k 0 : Int) : α) / 16777216)
      = ((loopNumerators.getD (k + 1) 0 : Int) : α) / 16777216 := by
  interval_cases k <;> simp only [loopNumerators, List.getD_cons_succ, List.getD_cons_zero]
  · exact (floatStep_eq (4) (-10066330) (1 / 524288) _ (abs_of_neg (by norm_num)) (by norm_num) (by norm_num)
      (by norm_num) (by norm_num) (by norm_num) (by norm_num)).trans (by norm_num)
  · exact (floatStep_eq (4) (-9646900) (1 / 524288) _ (abs_of_neg (by norm_num)) (by norm_num) (by norm_num)
      (by norm_num) (by norm_num) (by norm_num) (by norm_num)).trans (by norm_num)
  · exact (floatStep_eq (4) (-9227470) (1 / 524288) _ (abs_of_neg (by norm_num)) (by norm_num) (by norm_num)
      (by norm_num) (by norm_num) (by norm_num) (by norm_num)).trans (by norm_num)
  · exact (floatStep_eq (4) (-8808040) (1 / 524288) _ (abs_of_neg (by norm_num)) (by norm_num) (by norm_num)
      (by norm_num) (by norm_num) (by norm_num) (by norm_num)).trans (by norm_num)
  · exact (floatStep_eq (4) (-8388610) (1 / 524288) _ (abs_of_neg (by norm_num)) (by norm_num) (by norm_num)
      (by norm_num) (by norm_num) (by norm_num) (by norm_num)).trans (by norm_num)
  · exact (floatStep_eq (3) (-15938359) (1 / 1048576) _ (abs_of_neg (by norm_num)) (by norm_num) (by norm_num)
      (by norm_num) (by norm_num) (by norm_num) (by norm_num)).trans (by norm_num)
  · exact (floatStep_eq (3) (-15099498) (1 / 1048576) _ (abs_of_neg (by norm_num)) (by norm_num) (by norm_num)
      (by norm_num) (by norm_num) (by norm_num) (by norm_num)).trans (by norm_num)
  · exact (floatStep_eq (3) (-14260637) (1 / 1048576) _ (abs_of_neg (by norm_num)) (by norm_num) (by norm_num)
      (by norm_num) (by norm_num) (by norm_num) (by norm_num)).trans (by norm_num)
  · exact (floatStep_eq (3) (-13421776) (1 / 1048576) _ (abs_of_neg (by norm_num)) (by norm_num) (by norm_num)
      (by norm_num) (by norm_num) (by norm_num) (by norm_num)).trans (by norm_num)
  · exact (floatStep_eq (3) (-12582915) (1 / 1048576) _ (abs_of_neg (by norm_num)) (by norm_num) (by norm_num)
      (by norm_num) (by norm_num) (by norm_num) (by norm_num)).trans (by norm_num)
  · exact (floatStep_eq (3) (-11744054) (1 / 1048576) _ (abs_of_neg (by norm_num)) (by norm_num) (by norm_num)
      (by norm_num) (by norm_num) (by norm_num) (by norm_num)).trans (by norm_num)
  · exact (floatStep_eq (3) (-10905193) (1 / 1048576) _ (abs_of_neg (by norm_num)) (by norm_num) (by norm_num)
      (by norm_num) (by norm_num) (by norm_num) (by norm_num)).trans (by norm_num)
  · exact (floatStep_eq (3) (-10066332) (1 / 1048576) _ (abs_of_neg (by norm_num)) (by norm_num) (by norm_num)
      (by norm_num) (by norm_num) (by norm_num) (by norm_num)).trans (by norm_num)
  · exact (floatStep_eq (3) (-9227471) (1 / 1048576) _ (abs_of_neg (by norm_num)) (by norm_num) (by norm_num)
      (by norm_num) (by norm_num) (by norm_num) (by norm_num)).trans (by norm_num)
  · exact (floatStep_eq (3) (-8388610) (1 / 1048576) _ (abs_of_neg (by norm_num)) (by norm_num) (by norm_num)
      (by norm_num) (by norm_num) (by norm_num) (by norm_num)).trans (by norm_num)
  · exact (floatStep_eq (2) (-15099498) (1 / 2097152) _ (abs_of_neg (by norm_num)) (by norm_num) (by norm_num)
      (by norm_num) (by norm_num) (by norm_num) (by norm_num)).trans (by norm_num)
  · exact (floatStep_eq (2) (-13421776) (1 / 2097152) _ (abs_of_neg (by norm_num)) (by norm_num) (by norm_num)
      (by norm_num) (by norm_num) (by norm_num) (by norm_num)).trans (by norm_num)
  · exact (floatStep_eq (2) (-11744054) (1 / 2097152) _ (abs_of_neg (by norm_num)) (by norm_num) (by norm_num)
      (by norm_num) (by norm_num) (by norm_num) (by norm_num)).trans (by norm_num)
  · exact (floatStep_eq (2) (-10066332) (1 / 2097152) _ (abs_of_neg (by norm_num)) (by norm_num) (by norm_num)
      (by norm_num) (by norm_num) (by norm_num) (by norm_num)).trans (by norm_num)
  · exact (floatStep_eq (2) (-8388610) (1 / 2097152) _ (abs_of_neg (by norm_num)) (by norm_num) (by norm_num)
      (by norm_num) (by norm_num) (by norm_num) (by norm_num)).trans (by norm_num)
  · exact (floatStep_eq (1) (-13421777) (1 / 4194304) _ (abs_of_neg (by norm_num)) (by norm_num) (by norm_num)
      (by norm_num) (by norm_num) (by norm_num) (by norm_num)).trans (by norm_num)
  · exact (floatStep_eq (1) (-10066334) (1 / 4194304) _ (abs_of_neg (by norm_num)) (by norm_num) (by norm_num)
      (by norm_num) (by norm_num) (by norm_num) (by norm_num)).trans (by norm_num)
  · exact (floatStep_eq_tie (0) (-13421782) (1 / 8388608) _ (abs_of_neg (by norm_num)) (by norm_num) (by norm_num)
      (by norm_num) (by norm_num) (Or.inl (by norm_num)) (by decide)).trans (by norm_num)
  · exact (floatStep_eq (-1) (-13421791) (1 / 16777216) _ (abs_of_neg (by norm_num)) (by norm_num) (by norm_num)
      (by norm_num) (by norm_num) (by norm_num) (by norm_num)).trans (by norm_num)
  · exact (floatStep_eq (-20) (-9437184) (1 / 8796093022208) _ (abs_of_neg (by norm_num)) (by norm_num) (by norm_num)
      (by norm_num) (by norm_num) (by norm_num) (by norm_num)).trans (by norm_num)
  · exact (floatStep_eq (-1) (13421755) (1 / 16777216) _ (abs_of_pos (by norm_num)) (by norm_num) (by norm_num)
      (by norm_num) (by norm_num) (by norm_num) (by norm_num)).trans (by norm_num)
  · exact (floatStep_eq (0) (13421764) (1 / 8388608) _ (abs_of_pos (by norm_num)) (by norm_num) (by norm_num)
      (by norm_num) (by norm_num) (by norm_num) (by norm_num)).trans (by norm_num)
  · exact (floatStep_eq (1) (10066325) (1 / 4194304) _ (abs_of_pos (by norm_num)) (by norm_num) (by norm_num)
      (by norm_num) (by norm_num) (by norm_num) (by norm_num)).trans (by norm_num)
  · exact (floatStep_eq (1) (13421768) (1 / 4194304) _ (abs_of_pos (by norm_num)) (by norm_num) (by norm_num)
      (by norm_num) (by norm_num) (by norm_num) (by norm_num)).trans (by norm_num)
  · exact (floatStep_eq (1) (16777211) (1 / 4194304) _ (abs_of_pos (by norm_num)) (by norm_num) (by norm_num)
      (by norm_num) (by norm_num) (by norm_num) (by norm_num)).trans (by norm_num)
  · exact (floatStep_eq (2) (10066327) (1 / 2097152) _ (abs_of_pos (by norm_num)) (by norm_num) (by norm_num)
      (by norm_num) (by norm_num) (by norm_num) (by norm_num)).trans (by norm_num)
  · exact (floatStep_eq (2) (11744049) (1 / 2097152) _ (abs_of_pos (by norm_num)) (by norm_num) (by norm_num)
      (by norm_num) (by norm_num) (by norm_num) (by norm_num)).trans (by norm_num)
  · exact (floatStep_eq (2) (13421771) (1 / 2097152) _ (abs_of_pos (by norm_num)) (by norm_num) (by norm_num)
      (by norm_num) (by norm_num) (by norm_num) (by norm_num)).trans (by norm_num)
  · exact (floatStep_eq (2) (15099493) (1 / 2097152) _ (abs_of_pos (by norm_num)) (by norm_num) (by norm_num)
      (by norm_num) (by norm_num) (by norm_num) (by norm_num)).trans (by norm_num)
  · exact (floatStep_eq (2) (16777215) (1 / 2097152) _ (abs_of_pos (by norm_num)) (by norm_num) (by norm_num)
      (by norm_num) (by norm_num) (by norm_num) (by norm_num)).trans (by norm_num)
  · exact (floatStep_eq (3) (9227468) (1 / 1048576) _ (abs_of_pos (by norm_num)) (by norm_num) (by norm_num)
      (by norm_num) (by norm_num) (by norm_num) (by norm_num)).trans (by norm_num)
  · exact (floatStep_eq (3) (10066329) (1 / 1048576) _ (abs_of_pos (by norm_num)) (by norm_num) (by norm_num)
      (by norm_num) (by norm_num) (by norm_num) (by norm_num)).trans (by norm_num)
  · exact (floatStep_eq (3) (10905190) (1 / 1048576) _ (abs_of_pos (by norm_num)) (by norm_num) (by norm_num)
      (by norm_num) (by norm_num) (by norm_num) (by norm_num)).trans (by norm_num)
  · exact (floatStep_eq (3) (11744051) (1 / 1048576) _ (abs_of_pos (by norm_num)) (by norm_num) (by norm_num)
      (by norm_num) (by norm_num) (by norm_num) (by norm_num)).trans (by norm_num)
  · exact (floatStep_eq (3) (12582912) (1 / 1048576) _ (abs_of_pos (by norm_num)) (by norm_num) (by norm_num)
      (by norm_num) (by norm_num) (by norm_num) (by norm_num)).trans (by norm_num)
  · exact (floatStep_eq (3) (13421773) (1 / 1048576) _ (abs_of_pos (by norm_num)) (by norm_num) (by norm_num)
      (by norm_num) (by norm_num) (by norm_num) (by norm_num)).trans (by norm_num)
  · exact (floatStep_eq (3) (14260634) (1 / 1048576) _ (abs_of_pos (by norm_num)) (by norm_num) (by norm_num)
      (by norm_num) (by norm_num) (by norm_num) (by norm_num)).trans (by norm_num)
  · exact (floatStep_eq (3) (15099495) (1 / 1048576) _ (abs_of_pos (by norm_num)) (by norm_num) (by norm_num)
      (by norm_num) (by norm_num) (by norm_num) (by norm_num)).trans (by norm_num)
  · exact (floatStep_eq (3) (15938356) (1 / 1048576) _ (abs_of_pos (by norm_num)) (by norm_num) (by norm_num)
      (by norm_num) (by norm_num) (by norm_num) (by norm_num)).trans (by norm_num)
  · exact (floatStep_eq (4) (8388608) (1 / 524288) _ (abs_of_pos (by norm_num)) (by norm_num) (by norm_num)
      (by norm_num) (by norm_num) (by norm_num) (by norm_num)).trans (by norm_num)
  · exact (floatStep_eq (4) (8808038) (1 / 524288) _ (abs_of_pos (by norm_num)) (by norm_num) (by norm_num)
      (by norm_num) (by norm_num) (by norm_num) (by norm_num)).trans (by norm_num)
  · exact (floatStep_eq (4) (9227468) (1 / 524288) _ (abs_of_pos (by norm_num)) (by norm_num) (by norm_num)
      (by norm_num) (by norm_num) (by norm_num) (by norm_num)).trans (by norm_num)
  · exact (floatStep_eq (4) (9646898) (1 / 524288) _ (abs_of_pos (by norm_num)) (by norm_num) (by norm_num)
      (by norm_num) (by norm_num) (by norm_num) (by norm_num)).trans (by norm_num)
  · exact (floatStep_eq (4) (10066328) (1 / 524288) _ (abs_of_pos (by norm_num)) (by norm_num) (by norm_num)
      (by norm_num) (by norm_num) (by norm_num) (by norm_num)).trans (by norm_num)
  · exact (floatStep_eq (4) (10485758) (1 / 524288) _ (abs_of_pos (by norm_num)) (by norm_num) (by norm_num)
      (by norm_num) (by norm_num) (by norm_num) (by norm_num)).trans (by norm_num)
  · exact (floatStep_eq (4) (10905188) (1 / 524288) _ (abs_of_pos (by norm_num)) (by norm_num) (by norm_num)
      (by norm_num) (by norm_num) (by norm_num) (by norm_num)).trans (by norm_num)

theorem loopValue_table (k : Nat) (hk : k ≤ 51) :
    loopValue (20 : α) k = ((loopNumerators.getD k 0 : Int) : α) / 16777216 := by
  induction k with
  | zero =>
    simp only [loopValue, Function.iterate_zero, id_eq, loopNumerators, List.getD_cons_zero]
    norm_num
  | succ k ih =>
    have h := ih (by omega)
    unfold loopValue at h ⊢
    rw [Function.iterate_succ_apply', h]
    exact floatStep_table k (by omega)

theorem loopNumerators_bounds :
    (∀ k : Nat, k < 51 → -335544320 ≤ loopNumerators.getD k 0 ∧
      loopNumerators.getD k 0 < 335544320) ∧
    335544320 ≤ loopNumerators.getD 51 0 := by
  decide

/-- The `float` loop variable stays in `[-20, 20)` for its first 51 values and
has passed 20 at the 52nd. -/
theorem loopValue_bounds :
    (∀ k : Nat, k < 51 → (-20 : α) ≤ loopValue 20 k ∧ loopValue (20 : α) k < 20) ∧
    (20 : α) ≤ loopValue 20 51 := by
  obtain ⟨hb, h51⟩ := loopNumerators_bounds
  constructor
  · intro k hk
    obtain ⟨h1, h2⟩ := hb k hk
    rw [loopValue_table k (by omega)]
    have c1 : ((-335544320 : Int) : α) ≤ ((loopNumerators.getD k 0 : Int) : α) :=
      Int.cast_le.mpr h1
    have c2 : ((loopNumerators.getD k 0 : Int) : α) < ((335544320 : Int) : α) :=
      Int.cast_lt.mpr h2
    push_cast at c1 c2
    constructor
    · rw [le_div_iff₀ (by norm_num)]; linarith
    · rw [div_lt_iff₀ (by norm_num)]; linarith
  · rw [loopValue_table 51 (le_refl 51)]
    have c : ((335544320 : Int) : α) ≤ ((loopNumerators.getD 51 0 : Int) : α) :=
      Int.cast_le.mpr h51
    push_cast at c
    rw [le_div_iff₀ (by norm_num)]; linarith

/-! ## Rasterizer loops in binary32 -/

/-- Inner loop of `renderCube` with a binary32 loop variable, as a list of
samples: when the loop variable passes the bound after exactly `n` updates and
the fuel covers them, the loop draws the six samples of the grid points
`y, floatStep y, ...` in order. -/
theorem renderInnerFloat_eq (sin cos : α → α) (x : α) :
    ∀ (n fuel : Nat) (y : α) (s : CubeRenderer α), n ≤ fuel →
      (∀ b : Nat, b < n → floatStep^[b] y < s.cubeWidth) →
      s.cubeWidth ≤ floatStep^[n] y →
      renderInnerFloat sin cos x fuel y s = drawPoints sin cos s
        ((List.range n).flatMap (fun b => gridPointSamples s.cubeWidth x (floatStep^[b] y))) := by
  intro n
  induction n with
  | zero =>
    intro fuel y s _ _ hstop
    have hn : ¬ y < s.cubeWidth := not_lt.mpr hstop
    cases fuel <;> simp [renderInnerFloat, hn, drawPoints]
  | succ n ih =>
    intro fuel y s hfuel hgo hstop
    obtain ⟨f, rfl⟩ : ∃ f, fuel = f + 1 := ⟨fuel - 1, by omega⟩
    have hy : y < s.cubeWidth := hgo 0 (Nat.succ_pos n)
    unfold renderInnerFloat
    rw [if_pos hy, List.range_succ_eq_map, List.flatMap_cons, List.flatMap_map, drawPoints_append]
    have h0 : gridPointSamples s.cubeWidth x (floatStep^[0] y) = faceSamples s x y := rfl
    rw [h0]
    cases h1 : drawPoints sin cos s (faceSamples s x y) with
    | error e => rfl
    | ok s1 =>
      have hcw : s1.cubeWidth = s.cubeWidth :=
        (drawPoints_sameScene sin cos _ s s1 h1).2.2.2.2.2.1
      have hgo1 : ∀ b : Nat, b < n → floatStep^[b] (floatStep y) < s1.cubeWidth := by
        intro b hb
        rw [hcw]
        exact hgo (b + 1) (by omega)
      have hstop1 : s1.cubeWidth ≤ floatStep^[n] (floatStep y) := by
        rw [hcw]
        exact hstop
      simp only
      rw [ih f (floatStep y) s1 (by omega) hgo1 hstop1, hcw]
      rfl

/-- Outer loop of `renderCube` with binary32 loop variables, as a list of
samples: `n` outer steps from `x`, each running the inner loop for `m` steps
from `-cubeWidth`. -/
theorem renderOuterFloat_eq (sin cos : α → α) (inner m : Nat) (hm : m ≤ inner) :
    ∀ (n fuel : Nat) (x : α) (s : CubeRenderer α), n ≤ fuel →
      (∀ b : Nat, b < m → floatStep^[b] (-s.cubeWidth) < s.cubeWidth) →
      s.cubeWidth ≤ floatStep^[m] (-s.cubeWidth) →
      (∀ a : Nat, a < n → floatStep^[a] x < s.cubeWidth) →
      s.cubeWidth ≤ floatStep^[n] x →
      renderOuterFloat sin cos inner fuel x s = drawPoints sin cos s
        ((List.range n).flatMap (fun a => (List.range m).flatMap (fun b =>
          gridPointSamples s.cubeWidth (floatStep^[a] x) (floatStep^[b] (-s.cubeWidth))))) := by
  intro n
  induction n with
  | zero =>
    intro fuel x s _ _ _ _ hstop
    have hn : ¬ x < s.cubeWidth := not_lt.mpr hstop
    cases fuel <;> simp [renderOuterFloat, hn, drawPoints]
  | succ n ih =>
    intro fuel x s hfuel hgoI hstopI hgo hstop
    obtain ⟨f, rfl⟩ : ∃ f, fuel = f + 1 := ⟨fuel - 1, by omega⟩
    have hx : x < s.cubeWidth := hgo 0 (Nat.succ_pos n)
    unfold renderOuterFloat
    rw [if_pos hx, List.range_succ_eq_map, List.flatMap_cons, List.flatMap_map, drawPoints_append,
      renderInnerFloat_eq sin cos x m inner (-s.cubeWidth) s hm hgoI hstopI]
    simp only [Function.iterate_zero, id_eq]
    cases h1 : drawPoints sin cos s ((List.range m).flatMap (fun b =>
        gridPointSamples s.cubeWidth x (floatStep^[b] (-s.cubeWidth)))) with
    | error e => rfl
    | ok s1 =>
      have hcw : s1.cubeWidth = s.cubeWidth :=
        (drawPoints_sameScene sin cos _ s s1 h1).2.2.2.2.2.1
      have hgo1 : ∀ a : Nat, a < n → floatStep^[a] (floatStep x) < s1.cubeWidth := by
        intro a ha
        rw [hcw]
        exact hgo (a + 1) (by omega)
      have hstop1 : s1.cubeWidth ≤ floatStep^[n] (floatStep x) := by
        rw [hcw]
        exact hstop
      simp only
      rw [ih f (floatStep x) s1 (by omega) (by rw [hcw]; exact hgoI)
        (by rw [hcw]; exact hstopI) hgo1 hstop1, hcw]
      rfl

/-- With half-extent 20 and fuel for 51 steps of each loop, `renderCube` with
binary32 loop variables draws the samples of `cubeSamplesFloat 20` in order. -/
theorem renderCubeFloat_eq (sin cos : α → α) (s : CubeRenderer α) (hcw : s.cubeWidth = 20)
    (fuel : Nat) (hfuel : 51 ≤ fuel) :
    renderCubeFloat sin cos fuel s = drawPoints sin cos s (cubeSamplesFloat 20) := by
  obtain ⟨hb, h51⟩ := @loopValue_bounds α _ _
  have hgo : ∀ b : Nat, b < 51 → floatStep^[b] (-s.cubeWidth) < s.cubeWidth := by
    intro b hb1
    rw [hcw]
    exact (hb b hb1).2
  have hstop : s.cubeWidth ≤ floatStep^[51] (-s.cubeWidth) := by
    rw [hcw]
    exact h51
  unfold renderCubeFloat
  rw [renderOuterFloat_eq sin cos fuel 51 hfuel 51 fuel (-s.cubeWidth) s hfuel hgo hstop hgo hstop,
    hcw]
  rfl

theorem renderCubeFloat_ok (sin cos : α → α) (s : CubeRenderer α) (hs : WellFormed s)
    (hcw : s.cubeWidth = 20) (fuel : Nat) (hfuel : 51 ≤ fuel) :
    ∃ s1, renderCubeFloat sin cos fuel s = .ok s1 ∧ SameScene s s1 := by
  rw [renderCubeFloat_eq sin cos s hcw fuel hfuel]
  exact drawPoints_ok sin cos s hs _

theorem mem_cubeSamplesFloat {h : α} {p : Sample α} (hp : p ∈ cubeSamplesFloat h) :
    ∃ a b : Nat, a < 51 ∧ b < 51 ∧
      p ∈ gridPointSamples h (loopValue h a) (loopValue h b) := by
  unfold cubeSamplesFloat at hp
  obtain ⟨a, ha, hp1⟩ := List.mem_flatMap.mp hp
  obtain ⟨b, hb, hp2⟩ := List.mem_flatMap.mp hp1
  exact ⟨a, b, List.mem_range.mp ha, List.mem_range.mp hb, hp2⟩

theorem cubeSamplesFloat_length (h : α) : (cubeSamplesFloat h).length = 15606 := by
  unfold cubeSamplesFloat
  rw [length_flatMap_range _ 306 _ 51]
  intro a
  rw [length_flatMap_range _ 6 _ 51]
  intro b
  rfl

theorem cubeSamples_length (h : α) : (cubeSamples h).length = 15000 := by
  unfold cubeSamples
  rw [length_flatMap_range _ 300 _ 50]
  intro a
  rw [length_flatMap_range _ 6 _ 50]
  intro b
  rfl

theorem cubeSamplesFloat_count (h : α) (c : Char) (hc : c ∈ chars) :
    (cubeSamplesFloat h).countP (fun p => decide (p.character = c)) = 2601 := by
  unfold cubeSamplesFloat
  rw [countP_flatMap_range _ _ 51 _ 51]
  intro a
  rw [countP_flatMap_range _ _ 1 _ 51]
  intro b
  simp only [chars, List.mem_cons, List.mem_singleton, List.not_mem_nil, or_false] at hc
  rcases hc with rfl | rfl | rfl | rfl | rfl | rfl <;> rfl

theorem gridCoordinate_bounds (a : Nat) (ha : a < 50) :
    (-20 : α) ≤ gridCoordinate 20 a ∧ gridCoordinate (20 : α) a ≤ 20 - 0.8 := by
  have h0 : (0 : α) ≤ (a : α) := Nat.cast_nonneg a
  have h49 : (a : α) ≤ 49 := by
    have : a ≤ 49 := by omega
    exact_mod_cast this
  unfold gridCoordinate
  constructor
  · linarith [mul_nonneg (by norm_num : (0 : α) ≤ 0.8) h0]
  · have := mul_le_mul_of_nonneg_left h49 (by norm_num : (0 : α) ≤ 0.8)
    norm_num at this ⊢
    linarith

theorem mem_cubeSamples {h : α} {p : Sample α} (hp : p ∈ cubeSamples h) :
    ∃ a b : Nat, a < 50 ∧ b < 50 ∧
      p ∈ gridPointSamples h (gridCoordinate h a) (gridCoordinate h b) := by
  unfold cubeSamples at hp
  obtain ⟨a, ha, hp1⟩ := List.mem_flatMap.mp hp
  obtain ⟨b, hb, hp2⟩ := List.mem_flatMap.mp hp1
  exact ⟨a, b, List.mem_range.mp ha, List.mem_range.mp hb, hp2⟩

theorem loopValue_fifty : loopValue (20 : α) 50 = 5242879 / 262144 := by
  rw [loopValue_table 50 (by omega)]
  simp only [loopNumerators, List.getD_cons_succ, List.getD_cons_zero]
  norm_num

theorem loopValue_one : loopValue (20 : α) 1 = -5033165 / 262144 := by
  rw [loopValue_table 1 (by omega)]
  simp only [loopNumerators, List.getD_cons_succ, List.getD_cons_zero]
  norm_num

/-- C16, as stated, fails: in the source's binary32 arithmetic the step is
`13421773 / 2^24`, the loop variable after one update is `-19.200000762939453`
(not `-20 + 0.8`), and after 50 updates it is `19.999996185302734 < 20`, so both
loops run a 51st time. `renderCube` draws the 15606 samples of
`cubeSamplesFloat 20`, 2601 of each glyph (the claim's list has 15000), among
them the front sample at `x = 19.999996185302734`, which is not in the claim's
list. -/
theorem renderCube_runs_51_steps :
    (incrementFloat : ℝ) = 13421773 / 16777216 ∧
    loopValue (20 : ℝ) 1 = -5033165 / 262144 ∧
    loopValue (20 : ℝ) 1 ≠ gridCoordinate 20 1 ∧
    loopValue (20 : ℝ) 50 = 5242879 / 262144 ∧
    loopValue (20 : ℝ) 50 < 20 ∧
    (20 : ℝ) ≤ loopValue 20 51 ∧
    renderCubeFloat Real.sin Real.cos 51 (defaultCubeRenderer : CubeRenderer ℝ)
      = drawPoints Real.sin Real.cos defaultCubeRenderer (cubeSamplesFloat 20) ∧
    (cubeSamplesFloat (20 : ℝ)).length = 15606 ∧
    (cubeSamples (20 : ℝ)).length = 15000 ∧
    (cubeSamplesFloat (20 : ℝ)).countP (fun p => decide (p.character = '@')) = 2601 ∧
    (⟨5242879 / 262144, -20, -20, '@'⟩ : Sample ℝ) ∈ cubeSamplesFloat 20 ∧
    (⟨5242879 / 262144, -20, -20, '@'⟩ : Sample ℝ) ∉ cubeSamples 20 := by
  obtain ⟨hb, h51⟩ := @loopValue_bounds ℝ _ _
  refine ⟨incrementFloat_eq, loopValue_one, ?_, loopValue_fifty, (hb 50 (by omega)).2, h51,
    renderCubeFloat_eq Real.sin Real.cos defaultCubeRenderer rfl 51 (le_refl 51),
    cubeSamplesFloat_length 20, cubeSamples_length 20,
    cubeSamplesFloat_count 20 '@' (by decide), ?_, ?_⟩
  · rw [loopValue_one]
    unfold gridCoordinate
    norm_num
  · unfold cubeSamplesFloat
    refine List.mem_flatMap.mpr ⟨50, List.mem_range.mpr (by omega), ?_⟩
    refine List.mem_flatMap.mpr ⟨0, List.mem_range.mpr (by omega), ?_⟩
    rw [loopValue_fifty]
    have h0 : loopValue (20 : ℝ) 0 = -20 := rfl
    rw [h0]
    simp [gridPointSamples]
  · intro hmem
    obtain ⟨a, b, ha, -, hp⟩ := mem_cubeSamples hmem
    obtain ⟨-, ha2⟩ := @gridCoordinate_bounds ℝ _ _ a ha
    simp only [gridPointSamples, List.mem_cons, List.mem_singleton, List.not_mem_nil,
      or_false, Sample.mk.injEq] at hp
    rcases hp with h | h | h | h | h | h
    · have hx := h.1
      rw [← hx] at ha2
      norm_num at ha2
    all_goals exact absurd h.2.2.2 (by decide)

/-- C16, amended: in binary32 arithmetic, with half-extent 20, the `float` step
`0.800000011920929` and fuel for 51 steps of each loop, `renderCube` is the
drawing, in order, of the samples listed for `u = loopValue 20 a` (`a = 0 .. 50`,
outer) and `v = loopValue 20 b` (`b = 0 .. 50`, inner), where the loop value
starts at `-20` and each update adds the step and rounds to `float`, reaching
`19.999996185302734 < 20` after 50 updates and passing 20 at the next: front
`(u, v, -20)` `@`, right `(20, v, u)` `#`, left `(-20, v, -u)` `%`, back
`(-u, v, 20)` `.`, bottom `(u, -20, -v)` `=`, top `(u, 20, v)` `^`; it returns
a state from every state with buffers of length `width * height`. The list has
15606 samples, 2601 of each of the six pairwise distinct glyphs of `chars`;
every sample has its coordinates in `[-20, 20]` and the coordinate pinned by
its face at `+20` or `-20`. -/
theorem renderCubeFloat_samples (sin cos : α → α) (s : CubeRenderer α) (hcw : s.cubeWidth = 20)
    (fuel : Nat) (hfuel : 51 ≤ fuel) :
    renderCubeFloat sin cos fuel s = drawPoints sin cos s (cubeSamplesFloat 20) ∧
    (WellFormed s → ∃ s1, renderCubeFloat sin cos fuel s = .ok s1 ∧ SameScene s s1) ∧
    (loopValue (20 : α) 0 = -20 ∧
      (∀ a : Nat, loopValue (20 : α) (a + 1)
        = roundFloat (loopValue 20 a + roundFloat (roundDouble 0.8))) ∧
      loopValue (20 : α) 50 = 5242879 / 262144 ∧ loopValue (20 : α) 50 < 20 ∧
      (20 : α) ≤ loopValue 20 51) ∧
    (∀ u v : α, (gridPointSamples 20 u v).map (fun p => p.character) = chars) ∧
    chars.Nodup ∧ chars.length = 6 ∧
    (cubeSamplesFloat (20 : α)).length = 15606 ∧
    (∀ c ∈ chars, (cubeSamplesFloat (20 : α)).countP (fun p => decide (p.character = c)) = 2601) ∧
    (∀ p ∈ cubeSamplesFloat (20 : α), |p.x| ≤ 20 ∧ |p.y| ≤ 20 ∧ |p.z| ≤ 20 ∧
      (p.character = '@' → p.z = -20) ∧ (p.character = '#' → p.x = 20) ∧
      (p.character = '%' → p.x = -20) ∧ (p.character = '.' → p.z = 20) ∧
      (p.character = '=' → p.y = -20) ∧ (p.character = '^' → p.y = 20)) := by
  obtain ⟨hb, h51⟩ := @loopValue_bounds α _ _
  refine ⟨renderCubeFloat_eq sin cos s hcw fuel hfuel,
    fun hs => renderCubeFloat_ok sin cos s hs hcw fuel hfuel,
    ⟨rfl, ?_, loopValue_fifty, (hb 50 (by omega)).2, h51⟩,
    fun _ _ => rfl, by decide, rfl, cubeSamplesFloat_length 20,
    fun c hc => cubeSamplesFloat_count 20 c hc, ?_⟩
  · intro a
    unfold loopValue
    rw [Function.iterate_succ_apply']
    rfl
  · intro p hp
    obtain ⟨a, b, ha, hb1, hmem⟩ := mem_cubeSamplesFloat hp
    obtain ⟨ha1, ha2⟩ := hb a ha
    obtain ⟨hb2, hb3⟩ := hb b hb1
    simp only [gridPointSamples, List.mem_cons, List.mem_singleton, List.not_mem_nil,
      or_false] at hmem
    rcases hmem with rfl | rfl | rfl | rfl | rfl | rfl
    all_goals
      refine ⟨abs_le.mpr ⟨?_, ?_⟩, abs_le.mpr ⟨?_, ?_⟩, abs_le.mpr ⟨?_, ?_⟩, ?_, ?_, ?_, ?_, ?_, ?_⟩
    all_goals first
      | (intro _; rfl)
      | (intro h; exact absurd h (by simp))
      | (simp only; linarith)

theorem renderCubeFloat_samples_witness :
    (defaultCubeRenderer : CubeRenderer ℝ).cubeWidth = 20 ∧ 51 ≤ 51 ∧
    renderCubeFloat Real.sin Real.cos 51 (defaultCubeRenderer : CubeRenderer ℝ)
      = drawPoints Real.sin Real.cos defaultCubeRenderer (cubeSamplesFloat 20) ∧
    (WellFormed (defaultCubeRenderer : CubeRenderer ℝ) →
      ∃ s1, renderCubeFloat Real.sin Real.cos 51 (defaultCubeRenderer : CubeRenderer ℝ) = .ok s1 ∧
        SameScene defaultCubeRenderer s1) :=
  ⟨rfl, le_refl 51,
    (renderCubeFloat_samples Real.sin Real.cos defaultCubeRenderer rfl 51 (le_refl 51)).1,
    (renderCubeFloat_samples Real.sin Real.cos defaultCubeRenderer rfl 51 (le_refl 51)).2.1⟩

/-! ## Angle accumulation in binary32 -/

theorem runIterationFloat_ok (sin cos : α → α) (fuel : Nat) (s : CubeRenderer α)
    (hs : WellFormed s) (hw : 0 ≤ s.width) (hh : 0 ≤ s.height) (hcw : s.cubeWidth = 20)
    (hfuel : 51 ≤ fuel) :
    ∃ s1 frame, runIterationFloat sin cos fuel s = .ok (rotateFloat s1, frame) ∧
      SameScene s s1 := by
  have hr := resetBuffers_sameScene s
  obtain ⟨s1, h1, hsame1⟩ := renderCubeFloat_ok sin cos (resetBuffers s) (hr.wellFormed hs)
    hcw fuel hfuel
  have hsame : SameScene s s1 := hr.trans hsame1
  have hs1 : WellFormed s1 := hsame.wellFormed hs
  have hw1 : 0 ≤ s1.width := by rw [hsame.1]; exact hw
  have hh1 : 0 ≤ s1.height := by rw [hsame.2.1]; exact hh
  have hlen : (s1.buffer.length : Int) = s1.width * s1.height := by
    rw [hs1.2]
    exact Int.toNat_of_nonneg (mul_nonneg hw1 hh1)
  refine ⟨s1, String.mk (frameText s1.width.toNat s1.height.toNat s1.buffer), ?_, hsame⟩
  unfold runIterationFloat
  simp only [h1, display_eq s1 hw1 hh1 hlen]

/-- Angles after `n` iterations of the loop with binary32 arithmetic: each
iteration completes and applies one rounded addition to each angle. -/
theorem runLoopFloat_angles (sin cos : α → α) (fuel : Nat) (hfuel : 51 ≤ fuel) :
    ∀ (n : Nat) (s : CubeRenderer α), WellFormed s → 0 ≤ s.width → 0 ≤ s.height →
      s.cubeWidth = 20 →
      ∃ s1 frames, runLoopFloat sin cos fuel n s = .ok (s1, frames) ∧ frames.length = n ∧
        s1.A = (fun a => roundFloat (roundDouble (a + roundDouble 0.05)))^[n] s.A ∧
        s1.B = (fun a => roundFloat (roundDouble (a + roundDouble 0.05)))^[n] s.B ∧
        s1.C = (fun a => roundFloat (roundDouble (a + roundDouble 0.01)))^[n] s.C := by
  intro n
  induction n with
  | zero =>
    intro s _ _ _ _
    exact ⟨s, [], rfl, rfl, rfl, rfl, rfl⟩
  | succ n ih =>
    intro s hs hw hh hcw
    obtain ⟨s1, frame, h1, hsame⟩ := runIterationFloat_ok sin cos fuel s hs hw hh hcw hfuel
    have hs1 : WellFormed (rotateFloat s1) := hsame.wellFormed hs
    have hw1 : 0 ≤ (rotateFloat s1).width := by
      show 0 ≤ s1.width
      rw [hsame.1]; exact hw
    have hh1 : 0 ≤ (rotateFloat s1).height := by
      show 0 ≤ s1.height
      rw [hsame.2.1]; exact hh
    have hc1 : (rotateFloat s1).cubeWidth = 20 := by
      show s1.cubeWidth = 20
      rw [hsame.2.2.2.2.2.1]; exact hcw
    obtain ⟨s2, frames, h2, hlen, hA, hB, hC⟩ := ih (rotateFloat s1) hs1 hw1 hh1 hc1
    refine ⟨s2, frame :: frames, ?_, by simp [hlen], ?_, ?_, ?_⟩
    · simp only [runLoopFloat, h1, h2]
    · rw [hA, Function.iterate_succ_apply, ← hsame.2.2.1]
      rfl
    · rw [hB, Function.iterate_succ_apply, ← hsame.2.2.2.1]
      rfl
    · rw [hC, Function.iterate_succ_apply, ← hsame.2.2.2.2.1]
      rfl

theorem roundDouble_five_hundredths :
    roundDouble (0.05 : α) = 3602879701896397 / 72057594037927936 := by
  unfold roundDouble
  rw [roundBinary_eq 53 (-1022) (-5) 7205759403792794 (1 / 144115188075855872) (0.05)
    (by norm_num [abs_of_pos]) (by norm_num) (by norm_num) (by norm_num) (by norm_num)
    (by norm_num) (by norm_num)]
  norm_num

theorem roundDouble_one_hundredth :
    roundDouble (0.01 : α) = 5764607523034235 / 576460752303423488 := by
  unfold roundDouble
  rw [roundBinary_eq 53 (-1022) (-7) 5764607523034235 (1 / 576460752303423488) (0.01)
    (by norm_num [abs_of_pos]) (by norm_num) (by norm_num) (by norm_num) (by norm_num)
    (by norm_num) (by norm_num)]
  norm_num

/-- First rounded additions: from 0 the step 0.05 gives `13421773 / 2^28` and
the step 0.01 gives `5368709 / 2^29`. -/
theorem accumulate_one :
    accumulate (0.05 : α) 1 = 13421773 / 268435456 ∧
    accumulate (0.01 : α) 1 = 5368709 / 536870912 := by
  constructor
  · simp only [accumulate, Function.iterate_succ, Function.iterate_zero, Function.comp, id_eq,
      zero_add]
    rw [roundDouble_five_hundredths]
    have h1 : roundDouble (3602879701896397 / 72057594037927936 : α)
        = 3602879701896397 / 72057594037927936 := by
      unfold roundDouble
      rw [roundBinary_eq 53 (-1022) (-5) 7205759403792794 (1 / 144115188075855872)
        (3602879701896397 / 72057594037927936)
        (by norm_num [abs_of_pos]) (by norm_num) (by norm_num) (by norm_num) (by norm_num)
        (by norm_num) (by norm_num)]
      norm_num
    rw [h1]
    unfold roundFloat
    rw [roundBinary_eq 24 (-126) (-5) 13421773 (1 / 268435456)
      (3602879701896397 / 72057594037927936)
      (by norm_num [abs_of_pos]) (by norm_num) (by norm_num) (by norm_num) (by norm_num)
      (by norm_num) (by norm_num)]
    norm_num
  · simp only [accumulate, Function.iterate_succ, Function.iterate_zero, Function.comp, id_eq,
      zero_add]
    rw [roundDouble_one_hundredth]
    have h1 : roundDouble (5764607523034235 / 576460752303423488 : α)
        = 5764607523034235 / 576460752303423488 := by
      unfold roundDouble
      rw [roundBinary_eq 53 (-1022) (-7) 5764607523034235 (1 / 576460752303423488)
        (5764607523034235 / 576460752303423488)
        (by norm_num [abs_of_pos]) (by norm_num) (by norm_num) (by norm_num) (by norm_num)
        (by norm_num) (by norm_num)]
      norm_num
    rw [h1]
    unfold roundFloat
    rw [roundBinary_eq 24 (-126) (-7) 10737418 (1 / 1073741824)
      (5764607523034235 / 576460752303423488)
      (by norm_num [abs_of_pos]) (by norm_num) (by norm_num) (by norm_num) (by norm_num)
      (by norm_num) (by norm_num)]
    norm_num

/-- At `2^20 = 1048576` the rounded addition of 0.05 returns its argument: the
sum lies within half a spacing (`1/16`) of 1048576. -/
theorem rounded_step_stalls :
    roundFloat (roundDouble ((1048576 : α) + roundDouble 0.05)) = 1048576 := by
  rw [roundDouble_five_hundredths]
  have h1 : roundDouble ((1048576 : α) + 3602879701896397 / 72057594037927936)
      = 4503599842118861 / 4294967296 := by
    unfold roundDouble
    rw [roundBinary_eq 53 (-1022) 20 4503599842118861 (1 / 4294967296)
      (1048576 + 3602879701896397 / 72057594037927936)
      (by norm_num [abs_of_pos]) (by norm_num) (by norm_num) (by norm_num) (by norm_num)
      (by norm_num) (by norm_num)]
    norm_num
  rw [h1]
  unfold roundFloat
  rw [roundBinary_eq 24 (-126) 20 8388608 (1 / 8) (4503599842118861 / 4294967296)
    (by norm_num [abs_of_pos]) (by norm_num) (by norm_num) (by norm_num) (by norm_num)
    (by norm_num) (by norm_num)]
  norm_num

theorem rotateFloat_iterate (n : Nat) (s : CubeRenderer α) :
    (rotateFloat^[n] s).A = (fun a => roundFloat (roundDouble (a + roundDouble 0.05)))^[n] s.A ∧
    (rotateFloat^[n] s).B = (fun a => roundFloat (roundDouble (a + roundDouble 0.05)))^[n] s.B ∧
    (rotateFloat^[n] s).C = (fun a => roundFloat (roundDouble (a + roundDouble 0.01)))^[n] s.C := by
  induction n generalizing s with
  | zero => exact ⟨rfl, rfl, rfl⟩
  | succ n ih =>
    rw [Function.iterate_succ_apply, Function.iterate_succ_apply, Function.iterate_succ_apply,
      Function.iterate_succ_apply]
    exact ih (rotateFloat s)

/-- One iteration with binary32 loop variables and accumulators is the same
computation on two states of the same scene, whatever their buffers hold. -/
theorem runIterationFloat_congr (sin cos : α → α) (fuel : Nat) {s t : CubeRenderer α}
    (h : SameScene s t) : runIterationFloat sin cos fuel t = runIterationFloat sin cos fuel s := by
  unfold runIterationFloat
  rw [resetBuffers_congr h]

/-- C10, as stated, fails at `N = 1`: one iteration of the loop from the state
built by `main` leaves `A = B = 13421773 / 2^28 = 0.0500000007...`, the `float`
nearest 0.05, and `C = 5368709 / 2^29 = 0.0099999997...`, not `0.05` and `0.01`.
The accumulation is not strictly increasing either: at `A = 1048576` a call of
`rotate` leaves `A` as it is. -/
theorem angle_not_exact :
    ∃ s1 frames, runLoopFloat Real.sin Real.cos 51 1 (defaultCubeRenderer : CubeRenderer ℝ)
        = .ok (s1, frames) ∧
      s1.A = 13421773 / 268435456 ∧ s1.A ≠ 0.05 * ((1 : Nat) : ℝ) ∧
      s1.B = 13421773 / 268435456 ∧ s1.B ≠ 0.05 * ((1 : Nat) : ℝ) ∧
      s1.C = 5368709 / 536870912 ∧ s1.C ≠ 0.01 * ((1 : Nat) : ℝ) ∧
      (rotateFloat { (defaultCubeRenderer : CubeRenderer ℝ) with A := 1048576 }).A
        = 1048576 := by
  obtain ⟨s1, frames, h1, -, hA, hB, hC⟩ :=
    runLoopFloat_angles Real.sin Real.cos 51 (le_refl 51) 1 (defaultCubeRenderer : CubeRenderer ℝ)
      (newCubeRenderer_wellFormed 80 24) (by decide) (by decide) rfl
  obtain ⟨e5, e1⟩ := @accumulate_one ℝ _ _
  have zA : (defaultCubeRenderer : CubeRenderer ℝ).A = 0 := rfl
  have zB : (defaultCubeRenderer : CubeRenderer ℝ).B = 0 := rfl
  have zC : (defaultCubeRenderer : CubeRenderer ℝ).C = 0 := rfl
  rw [zA] at hA
  rw [zB] at hB
  rw [zC] at hC
  have hA1 : s1.A = 13421773 / 268435456 := hA.trans e5
  have hB1 : s1.B = 13421773 / 268435456 := hB.trans e5
  have hC1 : s1.C = 5368709 / 536870912 := hC.trans e1
  refine ⟨s1, frames, h1, hA1, ?_, hB1, ?_, hC1, ?_, rounded_step_stalls⟩
  · rw [hA1]; norm_num
  · rw [hB1]; norm_num
  · rw [hC1]; norm_num

/-- C10, amended: starting from the constructor's state (`A = B = C = 0`) with
non-negative dimensions, for every `N` the first `N` iterations of the loop of
`run` complete (with fuel for the 51 steps of each loop of `renderCube`), print
`N` frames, and leave in `A`, `B` and `C` the `N`-fold accumulations from 0 of
the steps 0.05, 0.05 and 0.01, where each call of `rotate` adds the `double`
constant in `double` and rounds the sum to `float`; nothing normalises the
angles. -/
theorem angle_accumulation (sin cos : α → α) (w h : Int) (hw : 0 ≤ w) (hh : 0 ≤ h)
    (fuel : Nat) (hfuel : 51 ≤ fuel) (N : Nat) :
    ∃ s1 frames, runLoopFloat sin cos fuel N (newCubeRenderer w h : CubeRenderer α)
        = .ok (s1, frames) ∧
      frames.length = N ∧
      s1.A = accumulate 0.05 N ∧ s1.B = accumulate 0.05 N ∧ s1.C = accumulate 0.01 N ∧
      (rotateFloat^[N] (newCubeRenderer w h : CubeRenderer α)).A = accumulate 0.05 N ∧
      (rotateFloat^[N] (newCubeRenderer w h : CubeRenderer α)).B = accumulate 0.05 N ∧
      (rotateFloat^[N] (newCubeRenderer w h : CubeRenderer α)).C = accumulate 0.01 N := by
  obtain ⟨s1, frames, h1, hlen, hA, hB, hC⟩ :=
    runLoopFloat_angles sin cos fuel hfuel N (newCubeRenderer w h : CubeRenderer α)
      (newCubeRenderer_wellFormed w h) hw hh rfl
  obtain ⟨rA, rB, rC⟩ := rotateFloat_iterate N (newCubeRenderer w h : CubeRenderer α)
  exact ⟨s1, frames, h1, hlen, hA, hB, hC, rA, rB, rC⟩

theorem angle_accumulation_witness :
    ∃ s1 frames, runLoopFloat Real.sin Real.cos 51 3 (newCubeRenderer 80 24 : CubeRenderer ℝ)
        = .ok (s1, frames) ∧
      frames.length = 3 ∧
      s1.A = accumulate 0.05 3 ∧ s1.B = accumulate 0.05 3 ∧ s1.C = accumulate 0.01 3 ∧
      (rotateFloat^[3] (newCubeRenderer 80 24 : CubeRenderer ℝ)).A = accumulate 0.05 3 ∧
      (rotateFloat^[3] (newCubeRenderer 80 24 : CubeRenderer ℝ)).B = accumulate 0.05 3 ∧
      (rotateFloat^[3] (newCubeRenderer 80 24 : CubeRenderer ℝ)).C = accumulate 0.01 3 :=
  angle_accumulation Real.sin Real.cos 80 24 (by decide) (by decide) 51 (le_refl 51) 3

end Theorems
end Cube
